import Mathlib

/-!
Verification development for the datajanitor repository.

This file gives a shallow embedding of the deterministic core of the
repository — the rule engine and validator library (lib-rules-engine,
src/unnamed/part_008), the schema mapper and type inferencer
(src/src/components/SchemaMapper.tsx), and the exact phase of the dedupe
scanner (src/src/lib/dedupe.ts) — and proves or refutes the frozen claims
about them.

Modelling conventions:
- JS values flowing through rows are modelled by `Val` (string, number as a
  rational, null); an absent or undefined field is `Option.none`.
- External npm libraries and JS builtins (RegExp, dayjs, Date.parse,
  validator.isEmail, validator.isURL, the URL constructor,
  libphonenumber-js, Number parsing) are not code of this repository; they
  are modelled as opaque function parameters collected in `JsPrims`.
  Theorems quantify over them; witnesses instantiate them with small
  concrete functions that agree with the real libraries at the evaluated
  points.
- js-levenshtein is a plain textbook edit distance and is implemented
  concretely, since the enum claims depend on actual distance values.
- JS string methods trim / toLowerCase / toUpperCase are implemented
  concretely on the ASCII fragment, which is the fragment every claim
  exercises.
- JS number-to-string conversion is approximated by the Rat printer; it is
  never empty, and no theorem below depends on its exact format.
-/

/-! ## JS string primitives -/

/-- The whitespace characters recognised by the model of String.trim. -/
def wsChar (c : Char) : Bool :=
  c = ' ' || c = '\t' || c = '\n' || c = '\r' || c = '\x0b' || c = '\x0c'

/-- ASCII lowercase mapping table, modelling String.toLowerCase on the
ASCII fragment. -/
def lowerPairs : List (Char × Char) :=
  [('A','a'),('B','b'),('C','c'),('D','d'),('E','e'),('F','f'),('G','g'),
   ('H','h'),('I','i'),('J','j'),('K','k'),('L','l'),('M','m'),('N','n'),
   ('O','o'),('P','p'),('Q','q'),('R','r'),('S','s'),('T','t'),('U','u'),
   ('V','v'),('W','w'),('X','x'),('Y','y'),('Z','z')]

def asciiLower (c : Char) : Char :=
  match lowerPairs.find? (fun p => p.1 = c) with
  | some p => p.2
  | none => c

def asciiUpper (c : Char) : Char :=
  match lowerPairs.find? (fun p => p.2 = c) with
  | some p => p.1
  | none => c

/-- Model of String.prototype.trim: drop whitespace from both ends. -/
def trimChars (l : List Char) : List Char :=
  ((l.dropWhile wsChar).reverse.dropWhile wsChar).reverse

def jsTrim (s : String) : String := ⟨trimChars s.data⟩

def jsLower (s : String) : String := ⟨s.data.map asciiLower⟩

def jsUpper (s : String) : String := ⟨s.data.map asciiUpper⟩

/-- Model of Array.prototype.join with a separator. -/
def joinSep (sep : String) : List String → String
  | [] => ""
  | [x] => x
  | x :: xs => x ++ sep ++ joinSep sep xs

/-- Keep the first occurrence of each element, like insertion into a JS
Set. -/
def dedupFirstAux (seen : List String) : List String → List String
  | [] => []
  | x :: xs => if x ∈ seen then dedupFirstAux seen xs else x :: dedupFirstAux (x :: seen) xs

def dedupFirst (l : List String) : List String := dedupFirstAux [] l

/-- Edit distance, modelling the js-levenshtein package. The fuel is the
sum of both lengths, which every recursive call strictly decreases, so the
zero-fuel case is unreachable; fuel keeps the recursion structural and
hence kernel-computable. -/
def levFuel : Nat → List Char → List Char → Nat
  | _, [], bs => bs.length
  | _, as, [] => as.length
  | 0, _, _ => 0
  | fuel + 1, a :: as', b :: bs' =>
    if a = b then levFuel fuel as' bs'
    else 1 + min (levFuel fuel as' (b :: bs'))
      (min (levFuel fuel (a :: as') bs') (levFuel fuel as' bs'))

def levChars (as bs : List Char) : Nat := levFuel (as.length + bs.length) as bs

def levDist (a b : String) : Nat := levChars a.data b.data

/-! ## Row values -/

/-- A JS value held in a row: a string, a number, or null. An absent or
undefined field is represented by Option.none one level up. -/
inductive Val where
  | vStr : String → Val
  | vNum : Rat → Val
  | vNull : Val
deriving DecidableEq

/-- Approximation of JS number-to-string conversion; only its
non-emptiness ever matters, and no theorem depends even on that. -/
def numToStr (q : Rat) : String := toString q

/-- Model of the helper toStr in lib-rules-engine: empty string for
null / undefined, String(v) otherwise. -/
def toStrV : Option Val → String
  | none => ""
  | some Val.vNull => ""
  | some (Val.vStr s) => s
  | some (Val.vNum q) => numToStr q

/-- Model of the helper isEmpty in lib-rules-engine: undefined, null, or a
string that trims to empty. A JS number never stringifies to whitespace,
so a number is never empty. -/
def isEmptyV : Option Val → Bool
  | none => true
  | some Val.vNull => true
  | some (Val.vStr s) => jsTrim s == ""
  | some (Val.vNum _) => false

/-- A row is an ordered mapping from field names to values, modelling a JS
object in property insertion order. -/
abbrev Row := List (String × Val)

/-- Property read: first binding wins (JS objects cannot hold duplicate
keys, so the distinction is moot on well-formed rows). -/
def rowGet (r : Row) (k : String) : Option Val :=
  (r.find? (fun p => p.1 == k)).map (fun p => p.2)

def rowSetAux (k : String) (v : Val) : Row → Row
  | [] => [(k, v)]
  | p :: ps => if p.1 == k then (p.1, v) :: ps else p :: rowSetAux k v ps

/-- Property write: update the existing binding in place, else append,
modelling JS property assignment. -/
def rowSet (r : Row) (k : String) (v : Val) : Row := rowSetAux k v r

/-! ## Rule and issue data model (lib-rules-engine types) -/

inductive Severity where
  | info | warning | error
deriving DecidableEq

inductive FixStrategy where
  | auto_fix | suggest_only | llm_suggest | none
deriving DecidableEq

/-- Validator-specific parameters; every field is optional, mirroring the
untyped params record of the source. -/
structure Params where
  pattern : Option String := Option.none
  flags : Option String := Option.none
  allowed : Option (List String) := Option.none
  synonyms : Option (List (String × String)) := Option.none
  min : Option Rat := Option.none
  max : Option Rat := Option.none
  type : Option String := Option.none
  toFmt : Option String := Option.none
  parseFmt : Option String := Option.none
  defaultCountry : Option String := Option.none
  countryField : Option String := Option.none
  fn : Option String := Option.none
  args : Option Val := Option.none

/-- One rule of a rule set. The validator name is a plain string, since at
runtime rules arrive from JSON and the engine guards against unknown
names. -/
structure Rule where
  id : String
  label : String := ""
  appliesTo : List String
  validator : String
  params : Params := {}
  fix : Option FixStrategy := Option.none
  severity : Option Severity := Option.none
  enabled : Bool

structure RuleSet where
  name : String
  version : Nat
  rules : List Rule
  dictionaries : List (String × String) := []
  piiFields : List String := []

structure ValidationResult where
  valid : Bool
  normalized : Option Val := Option.none
  problem : Option String := Option.none
  suggestion : Option Val := Option.none
  confidence : Option Rat := Option.none
deriving DecidableEq

/-- Row identifiers are strings or numbers in the source. -/
abbrev RowId := String ⊕ Nat

structure Issue where
  rowId : RowId
  field : String
  ruleId : String
  severity : Severity
  problem : String
  suggestion : Option Val := Option.none
  confidence : Option Rat := Option.none
  source : String := "deterministic"
  status : String := "open"
deriving DecidableEq

/-! ## External collaborators -/

/-- A caller-registered custom validator. The source signature also
receives a context record, which only exposes the engine options again;
that argument is dropped here to keep the registry type non-recursive.
A custom function may throw, modelled by Except.error. -/
abbrev CustomFn := Option Val → Option Val → Row → Except String ValidationResult

/-- Opaque models of the JS builtins and npm libraries the validators and
the schema mapper call into. -/
structure JsPrims where
  jsNumber : String → Option Rat
  regexCompile : String → Option String → Except String (String → Bool)
  dateParse : Option Val → Option Int
  dateISO : Int → String
  dateFormat : String → Int → String
  isEmail : String → Bool
  isURL : String → Bool
  urlNorm : String → Option String
  phoneParse : String → String → Option String
  reTest : String → String → String → Bool
  dateParseOk : String → Bool
  protoCall : String → Option Val → Params → Row → Except String ValidationResult

structure EngineOptions where
  defaultCountry : Option String := Option.none
  dictionaries : List (String × String) := []
  customCodeRegistry : List (String × CustomFn) := []
  countryMapper : Option (String → Option String) := Option.none
  stateMapper : Option (String → Option String → Option String) := Option.none
  fuzzyMaxDistance : Option Nat := Option.none

/-! ## Small JS helpers -/

/-- JS truthy string defaulting: o || d, where undefined and the empty
string are both falsy. -/
def truthyStrOr (o : Option String) (d : String) : String :=
  match o with
  | some s => if s == "" then d else s
  | Option.none => d

/-- JS truthiness filter on an optional string: undefined and the empty
string become none. -/
def truthyOpt (o : Option String) : Option String :=
  match o with
  | some s => if s == "" then Option.none else some s
  | Option.none => Option.none

/-- Model of clamp01 in lib-rules-engine (the not-a-number guard
disappears because confidences are rationals here). -/
def clamp01 (n : Option Rat) : Option Rat :=
  match n with
  | some q => some (max 0 (min 1 q))
  | Option.none => Option.none

/-- First-binding lookup in an association list, modelling a plain JS
object property read. -/
def lookupFirst {α : Type} (l : List (String × α)) (k : String) : Option α :=
  (l.find? (fun p => p.1 == k)).map (fun p => p.2)

/-- Last-binding lookup, modelling Object.fromEntries / new Map where a
later duplicate key overwrites an earlier one. -/
def lookupLast {α : Type} (l : List (String × α)) (k : String) : Option α :=
  (l.reverse.find? (fun p => p.1 == k)).map (fun p => p.2)

/-- Model of Number(value) applied to a row value. -/
def jsNumberOf (prims : JsPrims) : Option Val → Option Rat
  | some (Val.vNum q) => some q
  | some (Val.vStr s) => prims.jsNumber s
  | some Val.vNull => some 0
  | Option.none => Option.none

/-! ## Validator library (lib-rules-engine, built-in validators) -/

def vRequired (value : Option Val) : ValidationResult :=
  if !(isEmptyV value) then { valid := true }
  else { valid := false, problem := some "Value is required." }

def vRegex (prims : JsPrims) (value : Option Val) (params : Params) :
    Except String ValidationResult :=
  if isEmptyV value then .ok { valid := true }
  else
    match truthyOpt params.pattern with
    | Option.none => .ok { valid := true }
    | some p =>
      match prims.regexCompile p params.flags with
      | .error e => .error e
      | .ok test =>
        .ok (if test (toStrV value) then { valid := true }
             else { valid := false, problem := some "Value does not match pattern." })

/-- The fold computing the nearest allowed value by edit distance; a
strictly smaller distance replaces the best candidate, so the earliest
minimum wins. -/
def enumBest (v : String) (allowed : List String) : Option (String × Nat) :=
  allowed.foldl
    (fun best cand =>
      let d := levDist (jsLower v) (jsLower cand)
      match best with
      | Option.none => some (cand, d)
      | some b => if d < b.2 then some (cand, d) else some b)
    Option.none

def vEnum (opts : EngineOptions) (value : Option Val) (params : Params) :
    ValidationResult :=
  if isEmptyV value then { valid := true }
  else
    let v := jsTrim (toStrV value)
    let allowed := params.allowed.getD []
    let synonyms := (params.synonyms.getD []).map (fun p => (jsLower p.1, p.2))
    if allowed.contains v then { valid := true, normalized := some (Val.vStr v) }
    else
      match truthyOpt (lookupLast synonyms (jsLower v)) with
      | some syn => { valid := true, normalized := some (Val.vStr syn) }
      | Option.none =>
        let maxD := opts.fuzzyMaxDistance.getD 2
        match enumBest v allowed with
        | some best =>
          if best.2 ≤ maxD then
            { valid := true, normalized := some (Val.vStr best.1),
              confidence := some (max 0.6 (1 - (best.2 : Rat) / ((maxD : Rat) + 1))) }
          else { valid := false, problem := some "Value not in allowed enum." }
        | Option.none => { valid := false, problem := some "Value not in allowed enum." }

def vRange (prims : JsPrims) (value : Option Val) (params : Params) :
    ValidationResult :=
  if isEmptyV value then { valid := true }
  else
    let type := truthyStrOr params.type "number"
    if type == "number" then
      match jsNumberOf prims value with
      | Option.none => { valid := false, problem := some "Not a number." }
      | some num =>
        if (match params.min with | some m => decide (num < m) | Option.none => false) then
          { valid := false,
            problem := some ("Number below min " ++ numToStr (params.min.getD 0) ++ ".") }
        else if (match params.max with | some m => decide (num > m) | Option.none => false) then
          { valid := false,
            problem := some ("Number above max " ++ numToStr (params.max.getD 0) ++ ".") }
        else { valid := true, normalized := some (Val.vNum num) }
    else
      match prims.dateParse value with
      | Option.none => { valid := false, problem := some "Invalid date." }
      | some d =>
        if (match params.min with | some m => decide ((d : Rat) < m) | Option.none => false) then
          { valid := false, problem := some "Date below min." }
        else if (match params.max with | some m => decide ((d : Rat) > m) | Option.none => false) then
          { valid := false, problem := some "Date above max." }
        else { valid := true, normalized := some (Val.vStr (prims.dateISO d)) }

def vDateFormat (prims : JsPrims) (value : Option Val) (params : Params) :
    ValidationResult :=
  if isEmptyV value then { valid := true }
  else
    match prims.dateParse value with
    | Option.none => { valid := false, problem := some "Invalid date." }
    | some d =>
      let toKind := truthyStrOr params.toFmt "iso"
      if toKind == "iso" then
        { valid := true, normalized := some (Val.vStr (prims.dateISO d)) }
      else if toKind == "epoch" then
        { valid := true, normalized := some (Val.vNum (d : Rat)) }
      else
        { valid := true,
          normalized := some (Val.vStr (prims.dateFormat (truthyStrOr params.parseFmt "YYYY-MM-DD") d)) }

def vEmail (prims : JsPrims) (value : Option Val) : ValidationResult :=
  if isEmptyV value then { valid := true }
  else
    let v := jsLower (jsTrim (toStrV value))
    if prims.isEmail v then { valid := true, normalized := some (Val.vStr v) }
    else { valid := false, problem := some "Invalid email." }

def vPhone (prims : JsPrims) (opts : EngineOptions) (value : Option Val)
    (params : Params) : ValidationResult :=
  if isEmptyV value then { valid := true }
  else
    let defCountry := truthyStrOr params.defaultCountry (truthyStrOr opts.defaultCountry "US")
    match prims.phoneParse (toStrV value) defCountry with
    | some intl => { valid := true, normalized := some (Val.vStr intl) }
    | Option.none => { valid := false, problem := some "Invalid phone number." }

def vUrl (prims : JsPrims) (value : Option Val) : ValidationResult :=
  if isEmptyV value then { valid := true }
  else
    let v := jsTrim (toStrV value)
    if !(prims.isURL v) then { valid := false, problem := some "Invalid URL." }
    else
      match prims.urlNorm (if v.startsWith "http" then v else "https://" ++ v) with
      | some u => { valid := true, normalized := some (Val.vStr u) }
      | Option.none => { valid := false, problem := some "Invalid URL." }

def vCountry (opts : EngineOptions) (value : Option Val) : ValidationResult :=
  if isEmptyV value then { valid := true }
  else
    let mapped := match opts.countryMapper with
      | some f => truthyOpt (f (toStrV value))
      | Option.none => Option.none
    match mapped with
    | some m => { valid := true, normalized := some (Val.vStr m) }
    | Option.none => { valid := false, problem := some "Unknown country code/name." }

def vState (opts : EngineOptions) (value : Option Val) (params : Params)
    (row : Row) : ValidationResult :=
  if isEmptyV value then { valid := true }
  else
    let countryField := truthyStrOr params.countryField "country"
    let country := truthyOpt (some (jsUpper (toStrV (rowGet row countryField))))
    let mapped := match opts.stateMapper with
      | some f => truthyOpt (f (toStrV value) country)
      | Option.none => Option.none
    match mapped with
    | some m => { valid := true, normalized := some (Val.vStr m) }
    | Option.none => { valid := false, problem := some "Unknown/invalid state or province." }

def vCustomCode (opts : EngineOptions) (value : Option Val) (params : Params)
    (row : Row) : Except String ValidationResult :=
  match truthyOpt params.fn with
  | Option.none => .ok { valid := true }
  | some fnName =>
    match lookupFirst opts.customCodeRegistry fnName with
    | Option.none =>
      .ok { valid := false, problem := some ("Custom function not registered: " ++ fnName) }
    | some f => f value params.args row

def vLlmReview : ValidationResult := { valid := true }

/-- The keys of the validator dispatch table. Lookup of any other name
yields undefined in the source and is handled by the engine guard. -/
def builtinNames : List String :=
  ["required", "regex", "enum", "range", "date_format", "email", "phone",
   "url", "country", "state", "custom_code", "llm_review"]

/-- The validators table is a plain object literal, so a bracket lookup
that misses every own key still consults Object.prototype: these inherited
property names resolve to truthy members (functions, or the prototype
object itself for the dunder accessor), NOT to undefined. -/
def protoNames : List String :=
  ["constructor", "toString", "toLocaleString", "valueOf", "hasOwnProperty",
   "isPrototypeOf", "propertyIsEnumerable", "__proto__", "__defineGetter__",
   "__defineSetter__", "__lookupGetter__", "__lookupSetter__"]

/-- Dispatch on the validator name; only reached for names in
builtinNames. An Except.error models a validator throwing. -/
def runValidator (prims : JsPrims) (opts : EngineOptions) (name : String)
    (value : Option Val) (params : Params) (row : Row) :
    Except String ValidationResult :=
  if name == "required" then .ok (vRequired value)
  else if name == "regex" then vRegex prims value params
  else if name == "enum" then .ok (vEnum opts value params)
  else if name == "range" then .ok (vRange prims value params)
  else if name == "date_format" then .ok (vDateFormat prims value params)
  else if name == "email" then .ok (vEmail prims value)
  else if name == "phone" then .ok (vPhone prims opts value params)
  else if name == "url" then .ok (vUrl prims value)
  else if name == "country" then .ok (vCountry opts value)
  else if name == "state" then .ok (vState opts value params row)
  else if name == "custom_code" then vCustomCode opts value params row
  else .ok vLlmReview

/-! ## Rule engine (lib-rules-engine, class RuleEngine) -/

/-- Model of RuleEngine.applyRule. The lookup validators[name] follows the
JS prototype chain: an own key dispatches the builtin; a name inherited
from Object.prototype resolves to a truthy member which is then invoked
(modeled by the opaque protoCall primitive, reading valid/problem/
normalized/suggestion/confidence off whatever the call returns); only a
name missing from both is falsy and silently valid. A throw anywhere is
caught and converted into an invalid result with a diagnostic problem
message. -/
def applyRuleVR (prims : JsPrims) (opts : EngineOptions) (rule : Rule)
    (value : Option Val) (row : Row) : ValidationResult :=
  if builtinNames.contains rule.validator then
    match runValidator prims opts rule.validator value rule.params row with
    | .ok vr => vr
    | .error e => { valid := false, problem := some ("Validator error: " ++ e) }
  else if protoNames.contains rule.validator then
    match prims.protoCall rule.validator value rule.params row with
    | .ok vr => vr
    | .error e => { valid := false, problem := some ("Validator error: " ++ e) }
  else { valid := true }

/-- Model of RuleEngine.expandFields: a wildcard expands to the keys
currently present on the row; duplicates collapse as in a JS Set. -/
def expandFields (appliesTo : List String) (row : Row) : List String :=
  if appliesTo.isEmpty then []
  else dedupFirst (appliesTo.flatMap (fun f => if f == "*" then row.map (fun p => p.1) else [f]))

structure EngineState where
  row : Row
  issues : List Issue
deriving DecidableEq

/-- One (rule, field) application inside RuleEngine.applyRow: validate the
current value, auto-fix the row when allowed, and push an issue when the
result is invalid or carries a reviewable suggestion. -/
def applyField (prims : JsPrims) (opts : EngineOptions) (rule : Rule)
    (rowId : RowId) (st : EngineState) (field : String) : EngineState :=
  let val := rowGet st.row field
  let vr := applyRuleVR prims opts rule val st.row
  let strategy := rule.fix.getD FixStrategy.none
  let row1 :=
    if vr.normalized.isSome && strategy == FixStrategy.auto_fix then
      match vr.normalized with
      | some nv => rowSet st.row field nv
      | Option.none => st.row
    else st.row
  let hasSuggestion :=
    vr.suggestion.isSome || (vr.normalized.isSome && !(strategy == FixStrategy.auto_fix))
  if !vr.valid || hasSuggestion then
    { row := row1,
      issues := st.issues ++
        [{ rowId := rowId, field := field, ruleId := rule.id,
           severity := rule.severity.getD Severity.warning,
           problem := truthyStrOr vr.problem
             (if hasSuggestion then "Review suggested fix." else "Validation check."),
           suggestion := if strategy == FixStrategy.auto_fix then Option.none
                         else vr.suggestion.or vr.normalized,
           confidence := clamp01 vr.confidence }] }
  else { row := row1, issues := st.issues }

structure ApplyRowResult where
  normalizedRow : Row
  issues : List Issue
deriving DecidableEq

/-- Fold one rule over its expanded fields (the field list is computed
once per rule from the current row, then the row evolves under it). -/
def applyRuleFields (prims : JsPrims) (opts : EngineOptions) (rowId : RowId)
    (st : EngineState) (rule : Rule) : EngineState :=
  (expandFields rule.appliesTo st.row).foldl (applyField prims opts rule rowId) st

/-- Model of RuleEngine.applyRow. -/
def applyRow (prims : JsPrims) (opts : EngineOptions) (rs : RuleSet)
    (row : Row) (rowId : RowId) : ApplyRowResult :=
  let active := rs.rules.filter (fun r => r.enabled)
  let st := active.foldl (applyRuleFields prims opts rowId) { row := row, issues := [] }
  { normalizedRow := st.row, issues := st.issues }

/-- Model of RuleEngine.applyChunk: sequential application, one result per
row, indexed row ids. -/
def applyChunk (prims : JsPrims) (opts : EngineOptions) (rs : RuleSet)
    (rows : List Row) : List ApplyRowResult :=
  rows.enum.map (fun p => applyRow prims opts rs p.2 (Sum.inr p.1))

/-! ## Schema mapper and type inferencer (SchemaMapper.tsx)

Regex literals of the source are passed as pattern strings to the opaque
JS regex engine prims.reTest; the brace quantifiers inside the pattern
strings are written with hexadecimal escapes. -/

structure TypeGuess where
  type : String
  confidence : Rat
deriving DecidableEq

def insertDescBy {α : Type} (f : α → Rat) (x : α) : List α → List α
  | [] => [x]
  | y :: ys => if f y ≤ f x then x :: y :: ys else y :: insertDescBy f x ys

/-- Stable descending sort, modelling Array.prototype.sort with the
comparator (a, b) => f b - f a. -/
def sortDescBy {α : Type} (f : α → Rat) : List α → List α
  | [] => []
  | x :: xs => insertDescBy f x (sortDescBy f xs)

/-- Independent characterisation of the head of the stable descending
sort: the earliest element attaining the maximum. -/
def firstMaxBy {α : Type} (f : α → Rat) : List α → Option α
  | [] => Option.none
  | x :: xs =>
    match firstMaxBy f xs with
    | Option.none => some x
    | some a => some (if f a ≤ f x then x else a)

def boolPat : String := "^(true|false|yes|no|y|n|0|1)$"

def intPat : String := "^[+-]?\\d+$"

def floatPat : String := "^[+-]?\\d*\\.\\d+$"

def emailPat : String := "^[^\\s@]+@[^\\s@]+\\.[^\\s@]\x7b2,\x7d$"

def urlPat : String := "^(https?:\\/\\/)?([\\w-]+\\.)+[\\w-]\x7b2,\x7d(\\/.*)?$"

def phonePat : String := "^[+\\d]?\\s*(?:\\d[\\s-]?)\x7b6,14\x7d\\d$"

def currencyPat : String :=
  "^[$€£¥]\\s?\\d\x7b1,3\x7d(,\\d\x7b3\x7d)*(\\.\\d\x7b1,2\x7d)?$|^\\d+(\\.\\d\x7b2\x7d)?$"

/-- Model of detectType in SchemaMapper.tsx: the candidate score list in
object-literal insertion order. -/
def scoreEntries (prims : JsPrims) (values : List String) : List (String × Rat) :=
  let clean := (values.map jsTrim).filter (fun v => v.length > 0)
  let n : Rat := if clean.length = 0 then 1 else (clean.length : Rat)
  let unique := (dedupFirst (clean.map jsLower)).length
  let cBool := clean.countP (fun v => prims.reTest boolPat "i" v)
  let cInt := clean.countP (fun v => prims.reTest intPat "" v)
  let cFloat := clean.countP (fun v => prims.reTest floatPat "" v)
  let cDate := clean.countP (fun v => prims.dateParseOk v)
  let cEmail := clean.countP (fun v => prims.reTest emailPat "i" v)
  let cUrl := clean.countP (fun v => prims.reTest urlPat "i" v)
  let cPhone := clean.countP (fun v => prims.reTest phonePat "" v)
  let cCurrency := clean.countP (fun v => prims.reTest currencyPat "" v)
  let enumScore : Rat :=
    if (5 : Rat) ≤ n ∧ (unique : Rat) / n < 0.2 then 0.8 else 0
  [("string", 0), ("integer", (cInt : Rat) / n), ("float", (cFloat : Rat) / n),
   ("boolean", (cBool : Rat) / n), ("date", (cDate : Rat) / n),
   ("email", (cEmail : Rat) / n), ("phone", (cPhone : Rat) / n),
   ("url", (cUrl : Rat) / n), ("currency", (cCurrency : Rat) / n),
   ("enum", enumScore), ("unknown", 0)]

/-- Model of detectType in SchemaMapper.tsx: rank candidates descending,
take the top entry, and force string / 0.3 below the 0.3 floor. -/
def detectType (prims : JsPrims) (values : List String) : TypeGuess :=
  let ranked := sortDescBy (fun p => p.2) (scoreEntries prims values)
  match ranked.head? with
  | some p => if p.2 < 0.3 then ⟨"string", 0.3⟩ else ⟨p.1, p.2⟩
  | Option.none => ⟨"string", 0.3⟩

/-- Model of norm in SchemaMapper.tsx: lowercase, keep only [a-z0-9]. -/
def normKey (x : String) : String :=
  ⟨(jsLower x).data.filter (fun c => ('a' ≤ c && c ≤ 'z') || ('0' ≤ c && c ≤ '9'))⟩

/-- Model of String.prototype.includes. -/
def strIncludes (t w : String) : Bool :=
  (List.range (t.length + 1)).any (fun i => w.data.isPrefixOf (t.data.drop i))

/-- Model of tri in SchemaMapper.tsx: the set of 3-character shingles
(shorter strings degrade to one shorter shingle). -/
def triSet (s : String) : List String :=
  dedupFirst ((List.range (max 1 (s.length - 2))).map (fun i => ⟨(s.data.drop i).take 3⟩))

/-- Model of headerScore in SchemaMapper.tsx. -/
def headerScore (a b : String) : Rat :=
  if a == b then 1
  else if strIncludes a b || strIncludes b a then 0.8
  else
    let A := triSet a
    let B := triSet b
    let inter := A.countP (fun x => B.contains x)
    let uni := (dedupFirst (A ++ B)).length
    (inter : Rat) / (if uni = 0 then 1 else (uni : Rat))

structure Hint where
  target : String
  delta : Rat
  reason : String
deriving DecidableEq

def gtmPat : String := "strong\\b|weak\\b|mixed\\b"

def opsPat : String := "high\\b|partial\\b|ad-?hoc\\b"

def intentPat : String := "clear intent|no plan|exploring|\\bintent\\b"

def runwayPat : String := "positive|negative|break-?even|\\bmo\\b"

def decisionPat : String := "decision maker|influencer|engaged|no clarity"

def yesNoPat : String := "yes\\b|no\\b"

/-- Model of valueHeuristics in SchemaMapper.tsx: fixed content-pattern
boosts over the first 50 samples. -/
def valueHeuristics (prims : JsPrims) (values : List String) : List Hint :=
  let text := jsLower (joinSep " | " (values.take 50))
  (if prims.reTest gtmPat "" text then
    [⟨"gtm_traction", 0.35, "values look like GTM traction"⟩] else []) ++
  (if prims.reTest opsPat "" text then
    [⟨"ops_maturity", 0.35, "values look like Ops maturity"⟩] else []) ++
  (if prims.reTest intentPat "" text then
    [⟨"growth_intent", 0.35, "values mention intent"⟩] else []) ++
  (if prims.reTest runwayPat "" text then
    [⟨"cash_runway", 0.3, "values look like cash/runway bands"⟩] else []) ++
  (if prims.reTest decisionPat "" text then
    [⟨"decision_readiness", 0.3, "values about decision roles/readiness"⟩] else []) ++
  (if prims.reTest yesNoPat "" text then
    [⟨"engagement_1_1", 0.15, "yes/no answers detected"⟩] else [])

structure ScoredCand where
  f : String
  score : Rat
  reason : String
deriving DecidableEq

/-- Update the first element satisfying p, modelling Array.prototype.find
followed by in-place mutation. -/
def updFirst {α : Type} (p : α → Bool) (g : α → α) : List α → List α
  | [] => []
  | x :: xs => if p x then g x :: xs else x :: updFirst p g xs

def scoredBase (canon : List String) (name : String) : List ScoredCand :=
  canon.map (fun f => ⟨f, headerScore (normKey name) (normKey f), "header similarity"⟩)

def boostedScored (prims : JsPrims) (canon : List String) (name : String)
    (values : List String) : List ScoredCand :=
  (valueHeuristics prims values).foldl
    (fun sc b => updFirst (fun x => x.f == b.target)
      (fun x => { x with score := x.score + b.delta, reason := b.reason }) sc)
    (scoredBase canon name)

def scoredSorted (prims : JsPrims) (canon : List String) (name : String)
    (values : List String) : List ScoredCand :=
  sortDescBy (fun x => x.score) (boostedScored prims canon name values)

def bestScored (prims : JsPrims) (canon : List String) (name : String)
    (values : List String) : Option ScoredCand :=
  (scoredSorted prims canon name values).head?

structure ColumnSpec where
  source : String
  type : String
  confidence : Rat
  samples : List String
  target : Option String
  suggestTargets : List String
  reason : Option String
deriving DecidableEq

/-- Model of inferColumn in SchemaMapper.tsx. Below the 0.6 gate the
target is assigned the raw source header name. -/
def inferColumn (prims : JsPrims) (canon : List String) (name : String)
    (values : List String) : ColumnSpec :=
  let t := detectType prims values
  let sorted := scoredSorted prims canon name values
  let best := sorted.head?
  { source := if name == "" then "—" else name,
    type := t.type,
    confidence := t.confidence,
    samples := values.take 5,
    suggestTargets := (sorted.take 5).map (fun x => x.f),
    target :=
      match best with
      | some b => if 0.6 ≤ b.score then some b.f else some name
      | Option.none => some name,
    reason :=
      match best with
      | some b =>
        if 0.6 ≤ b.score then
          some (b.reason ++ " (" ++ toString ((b.score * 100).floor) ++ "%)")
        else some "source header"
      | Option.none => some "source header" }

structure GeminiCol where
  source : String
  target : Option String := Option.none
  inferredType : Option String := Option.none
  confidence : Option Rat := Option.none
  reason : Option String := Option.none
deriving DecidableEq

/-- Model of the per-column body of mergeGemini in SchemaMapper.tsx. -/
def mergeOne (canon : List String) (mapping : List GeminiCol) (col : ColumnSpec) :
    ColumnSpec :=
  let bySrc := mapping.map (fun m => (jsLower m.source, m))
  match lookupLast bySrc (jsLower col.source) with
  | Option.none => col
  | some m =>
    let t := m.target.getD ""
    let valid := canon.contains t
    { col with
      target := if valid then some t else col.target,
      reason := if valid then some (truthyStrOr m.reason "Gemini") else col.reason,
      type := truthyStrOr m.inferredType col.type,
      confidence :=
        match m.confidence with
        | some q => max col.confidence q
        | Option.none => col.confidence }

def mergeGemini (canon : List String) (base : List ColumnSpec)
    (mapping : List GeminiCol) : List ColumnSpec :=
  base.map (mergeOne canon mapping)

/-! ## Dedupe scanner, exact phase (src/src/lib/dedupe.ts)

Only the pure bucketing core is modelled; Firestore transport and the
quadratic fuzzy phase are outside the claims. -/

structure DIssue where
  rowId : String
  field : String
  ruleId : String
  problem : String
  cluster : List String
  confidence : Rat
  severity : String
  source : String := "deterministic"
  status : String := "open"
deriving DecidableEq

/-- JS truthiness of a row value, for the v || fallback idiom. -/
def jsFalsyV : Option Val → Bool
  | Option.none => true
  | some Val.vNull => true
  | some (Val.vStr s) => s == ""
  | some (Val.vNum q) => q == 0

/-- Model of norm in dedupe.ts: String(v || ZERO-VALUE).trim().toLowerCase. -/
def dedupeNorm (v : Option Val) : String :=
  jsLower (jsTrim (if jsFalsyV v then "" else toStrV v))

/-- The composite bucket key: normalized key-field values joined with a
pipe separator. -/
def compositeKey (keyFields : List String) (r : Row) : String :=
  joinSep "|" (keyFields.map (fun k => dedupeNorm (rowGet r k)))

/-- Append an id to the bucket for k, creating the bucket at the end when
absent, preserving Map insertion order. -/
def bucketAdd (bs : List (String × List String)) (k : String) (id : String) :
    List (String × List String) :=
  if bs.any (fun p => p.1 == k) then
    bs.map (fun p => if p.1 == k then (p.1, p.2 ++ [id]) else p)
  else bs ++ [(k, [id])]

/-- Deterministic key bucketing of dedupeScan: rows with an empty
composite key are skipped. -/
def buildBuckets (keyFields : List String) (rows : List (String × Row)) :
    List (String × List String) :=
  rows.foldl
    (fun bs p =>
      let key := compositeKey keyFields p.2
      if key == "" then bs else bucketAdd bs key p.1)
    []

/-- The issues produced by the exact phase of dedupeScan: one issue per
member of every bucket with more than one member. -/
def dedupeKeyIssues (keyFields : List String) (rows : List (String × Row)) :
    List DIssue :=
  (buildBuckets keyFields rows).flatMap (fun b =>
    if b.2.length ≤ 1 then []
    else b.2.map (fun id =>
      { rowId := id, field := joinSep "," keyFields, ruleId := "dedupe-key",
        problem := "Potential duplicate key: " ++ b.1, cluster := b.2,
        confidence := 0.95, severity := "warning" }))

/-- The dupKeyCount statistic of dedupeScan. -/
def dupKeyCount (keyFields : List String) (rows : List (String × Row)) : Nat :=
  ((buildBuckets keyFields rows).filter (fun b => 1 < b.2.length)).foldl
    (fun acc b => acc + (b.2.length - 1)) 0

/-! ## Helper lemmas: ASCII lowering and trimming -/

theorem lowerPairs_snd_no_key :
    ∀ p ∈ lowerPairs, lowerPairs.find? (fun q => q.1 = p.2) = Option.none := by
  decide

theorem lowerPairs_ws :
    ∀ p ∈ lowerPairs, wsChar p.1 = false ∧ wsChar p.2 = false := by
  decide

theorem asciiLower_idem (c : Char) : asciiLower (asciiLower c) = asciiLower c := by
  unfold asciiLower
  cases h : lowerPairs.find? (fun p => p.1 = c) with
  | none => simp [h]
  | some p =>
    have hp : p ∈ lowerPairs := List.mem_of_find?_eq_some h
    simp [lowerPairs_snd_no_key p hp]

theorem wsChar_asciiLower (c : Char) : wsChar (asciiLower c) = wsChar c := by
  unfold asciiLower
  cases h : lowerPairs.find? (fun p => p.1 = c) with
  | none => rfl
  | some p =>
    have hp : p ∈ lowerPairs := List.mem_of_find?_eq_some h
    have hkey : p.1 = c := by
      have := List.find?_some h
      simpa using this
    have hws := lowerPairs_ws p hp
    simp [← hkey, hws.1, hws.2]

theorem length_dropWhile_le {α : Type} (p : α → Bool) (l : List α) :
    (l.dropWhile p).length ≤ l.length := by
  induction l with
  | nil => simp [List.dropWhile]
  | cons a t ih =>
    by_cases h : p a
    · simp [List.dropWhile, h]; omega
    · simp [List.dropWhile, h]

theorem dropWhile_fix {α : Type} (p : α → Bool) (l : List α) :
    (l.dropWhile p).dropWhile p = l.dropWhile p := by
  induction l with
  | nil => rfl
  | cons a t ih =>
    by_cases h : p a
    · simp [List.dropWhile, h, ih]
    · simp [List.dropWhile, h]

theorem dropWhile_cons_false {α : Type} (p : α → Bool) (a : α) (t : List α)
    (h : p a = false) : (a :: t).dropWhile p = a :: t := by
  simp [List.dropWhile, h]

theorem head_false_of_dropWhile_fix {α : Type} (p : α → Bool) (a : α) (t : List α)
    (h : (a :: t).dropWhile p = a :: t) : p a = false := by
  by_cases hp : p a
  · exfalso
    have h1 : t.dropWhile p = a :: t := by simpa [List.dropWhile, hp] using h
    have h2 := length_dropWhile_le p t
    rw [h1] at h2
    simp at h2
  · exact eq_false_of_ne_true hp

/-- The list dropped on the left is a suffix: some prefix was removed. -/
theorem dropWhile_eq_append {α : Type} (p : α → Bool) (l : List α) :
    ∃ pre, l = pre ++ l.dropWhile p := by
  induction l with
  | nil => exact ⟨[], rfl⟩
  | cons a t ih =>
    by_cases h : p a
    · obtain ⟨pre, hpre⟩ := ih
      exact ⟨a :: pre, by simp [List.dropWhile, h, ← hpre]⟩
    · exact ⟨[], by simp [List.dropWhile, h]⟩

/-- The reverse of the second-pass drop is itself fixed under dropWhile,
because the surviving head character already survived the first pass. -/
theorem reverse_dropWhile_fix {α : Type} (p : α → Bool) (u : List α)
    (hu : u.dropWhile p = u) :
    ((u.reverse.dropWhile p).reverse).dropWhile p = (u.reverse.dropWhile p).reverse := by
  cases hX : (u.reverse.dropWhile p).reverse with
  | nil => simp
  | cons h r =>
    have hXr : u.reverse.dropWhile p = ((h :: r) : List α).reverse := by
      have := congrArg List.reverse hX
      simpa using this
    obtain ⟨pre, hpre⟩ := dropWhile_eq_append p u.reverse
    rw [hXr] at hpre
    have hufull : u = (h :: r) ++ pre.reverse := by
      have := congrArg List.reverse hpre
      simpa using this
    have hhead : p h = false := by
      apply head_false_of_dropWhile_fix p h (r ++ pre.reverse)
      have : u.dropWhile p = u := hu
      rw [hufull] at this
      simpa using this
    exact dropWhile_cons_false p h r hhead

theorem trimChars_fix_left (l : List Char) :
    (trimChars l).dropWhile wsChar = trimChars l := by
  unfold trimChars
  exact reverse_dropWhile_fix wsChar (l.dropWhile wsChar) (dropWhile_fix wsChar l)

theorem trimChars_idem (l : List Char) : trimChars (trimChars l) = trimChars l := by
  have h1 := trimChars_fix_left l
  show (((trimChars l).dropWhile wsChar).reverse.dropWhile wsChar).reverse = trimChars l
  rw [h1]
  show ((((l.dropWhile wsChar).reverse.dropWhile wsChar).reverse).reverse.dropWhile
          wsChar).reverse = _
  rw [List.reverse_reverse, dropWhile_fix]
  rfl

theorem dropWhile_map_asciiLower (l : List Char) :
    (l.map asciiLower).dropWhile wsChar = (l.dropWhile wsChar).map asciiLower := by
  rw [List.dropWhile_map]
  have h : (wsChar ∘ asciiLower) = wsChar := funext wsChar_asciiLower
  rw [h]

theorem trimChars_map_asciiLower (l : List Char) :
    trimChars (l.map asciiLower) = (trimChars l).map asciiLower := by
  unfold trimChars
  rw [dropWhile_map_asciiLower, ← List.map_reverse, dropWhile_map_asciiLower,
    ← List.map_reverse]

theorem map_asciiLower_idem (l : List Char) :
    (l.map asciiLower).map asciiLower = l.map asciiLower := by
  rw [List.map_map]
  apply List.map_congr_left
  intro c _
  exact asciiLower_idem c

/-- The composite email normalisation (trim then lowercase) is a fixed
point of itself, at the level of strings. -/
theorem emailFix_fix (s : String) :
    jsLower (jsTrim (jsLower (jsTrim s))) = jsLower (jsTrim s) := by
  unfold jsLower jsTrim
  apply String.ext
  simp only
  rw [trimChars_map_asciiLower, trimChars_idem, map_asciiLower_idem]

theorem jsTrim_of_fix (s : String) :
    jsTrim (jsLower (jsTrim s)) = jsLower (jsTrim s) := by
  unfold jsLower jsTrim
  apply String.ext
  simp only
  rw [trimChars_map_asciiLower, trimChars_idem]

/-! ## Helper lemmas: row access -/

theorem rowGet_rowSet_self (r : Row) (k : String) (v : Val) :
    rowGet (rowSet r k v) k = some v := by
  unfold rowSet
  induction r with
  | nil => simp [rowSetAux, rowGet, List.find?]
  | cons p ps ih =>
    by_cases h : p.1 == k
    · simp [rowSetAux, h, rowGet, List.find?]
    · simp only [rowSetAux, h, Bool.false_eq_true, if_false]
      simp only [rowGet, List.find?, h]
      exact ih

theorem rowSet_self (r : Row) (k : String) (v : Val)
    (h : rowGet r k = some v) : rowSet r k v = r := by
  unfold rowSet
  induction r with
  | nil => simp [rowGet, List.find?] at h
  | cons p ps ih =>
    by_cases hk : p.1 == k
    · have hv : p.2 = v := by
        simp [rowGet, List.find?, hk] at h
        exact h
      simp [rowSetAux, hk, ← hv]
    · have h2 : rowGet ps k = some v := by
        simpa [rowGet, List.find?, hk] using h
      simp [rowSetAux, hk, ih h2]

/-! ## Helper lemmas: stable descending sort -/

theorem head?_insertDescBy {α : Type} (f : α → Rat) (x : α) (l : List α) :
    (insertDescBy f x l).head? =
      some (match l.head? with
            | some y => if f y ≤ f x then x else y
            | Option.none => x) := by
  cases l with
  | nil => rfl
  | cons y ys =>
    by_cases h : f y ≤ f x
    · simp [insertDescBy, h]
    · simp [insertDescBy, h]

theorem sortDescBy_head? {α : Type} (f : α → Rat) (l : List α) :
    (sortDescBy f l).head? = firstMaxBy f l := by
  induction l with
  | nil => rfl
  | cons x xs ih =>
    show (insertDescBy f x (sortDescBy f xs)).head? = _
    rw [head?_insertDescBy, ih]
    cases h : firstMaxBy f xs with
    | none => simp [firstMaxBy, h]
    | some a => simp [firstMaxBy, h]

theorem firstMaxBy_none_iff {α : Type} (f : α → Rat) (l : List α) :
    firstMaxBy f l = Option.none ↔ l = [] := by
  cases l with
  | nil => simp [firstMaxBy]
  | cons x xs =>
    simp only [firstMaxBy]
    cases firstMaxBy f xs <;> simp

theorem firstMaxBy_le {α : Type} (f : α → Rat) :
    ∀ (l : List α) (b : α), firstMaxBy f l = some b → ∀ y ∈ l, f y ≤ f b := by
  intro l
  induction l with
  | nil => intro b hb; simp [firstMaxBy] at hb
  | cons x xs ih =>
    intro b hb y hy
    cases hx : firstMaxBy f xs with
    | none =>
      have hxs : xs = [] := (firstMaxBy_none_iff f xs).mp hx
      subst hxs
      simp [firstMaxBy] at hb
      simp at hy
      subst hb; subst hy
      exact le_refl _
    | some a =>
      have hb2 : b = if f a ≤ f x then x else a := by
        simp [firstMaxBy, hx] at hb
        exact hb.symm
      rcases List.mem_cons.mp hy with hyx | hyxs
      · subst hyx
        by_cases hc : f a ≤ f y
        · simp [hb2, hc]
        · have h2 : f y ≤ f a := le_of_lt (lt_of_not_le hc)
          simpa [hb2, hc] using h2
      · have h1 : f y ≤ f a := ih a hx y hyxs
        by_cases hc : f a ≤ f x
        · simp only [hb2, hc, if_true]
          exact le_trans h1 hc
        · simpa [hb2, hc] using h1

/-! ## Helper lemmas: the enum fuzzy fold -/

theorem enumBest_mem (v : String) (allowed : List String) (b : String × Nat)
    (hb : enumBest v allowed = some b) :
    b.1 ∈ allowed ∧ b.2 = levDist (jsLower v) (jsLower b.1) := by
  unfold enumBest at hb
  suffices h : ∀ (cs : List String) (acc : Option (String × Nat)),
      (∀ a, acc = some a → a.1 ∈ allowed ∧ a.2 = levDist (jsLower v) (jsLower a.1)) →
      (∀ c ∈ cs, c ∈ allowed) →
      ∀ b, cs.foldl
        (fun best cand =>
          let d := levDist (jsLower v) (jsLower cand)
          match best with
          | Option.none => some (cand, d)
          | some bb => if d < bb.2 then some (cand, d) else some bb) acc = some b →
        b.1 ∈ allowed ∧ b.2 = levDist (jsLower v) (jsLower b.1) by
    exact h allowed Option.none (by intro a ha; cases ha) (fun c hc => hc) b hb
  intro cs
  induction cs with
  | nil =>
    intro acc hacc _ b hfold
    exact hacc b hfold
  | cons c cs' ih =>
    intro acc hacc hmem b hfold
    simp only [List.foldl_cons] at hfold
    apply ih _ _ (fun c2 hc2 => hmem c2 (List.mem_cons_of_mem c hc2)) b hfold
    intro a ha
    cases acc with
    | none =>
      simp at ha
      rw [← ha]
      exact ⟨hmem c (List.mem_cons_self c cs'), rfl⟩
    | some bb =>
      by_cases hd : levDist (jsLower v) (jsLower c) < bb.2
      · simp [hd] at ha
        rw [← ha]
        exact ⟨hmem c (List.mem_cons_self c cs'), rfl⟩
      · simp [hd] at ha
        exact ha ▸ hacc bb rfl

theorem enumBest_min (v : String) (allowed : List String) (b : String × Nat)
    (hb : enumBest v allowed = some b) :
    ∀ c ∈ allowed, b.2 ≤ levDist (jsLower v) (jsLower c) := by
  unfold enumBest at hb
  suffices h : ∀ (cs : List String) (acc : Option (String × Nat)) (b : String × Nat),
      cs.foldl
        (fun best cand =>
          let d := levDist (jsLower v) (jsLower cand)
          match best with
          | Option.none => some (cand, d)
          | some bb => if d < bb.2 then some (cand, d) else some bb) acc = some b →
      (∀ c ∈ cs, b.2 ≤ levDist (jsLower v) (jsLower c)) ∧
      (∀ a, acc = some a → b.2 ≤ a.2) by
    exact (h allowed Option.none b hb).1
  intro cs
  induction cs with
  | nil =>
    intro acc b hfold
    simp at hfold
    constructor
    · intro c hc; simp at hc
    · intro a ha; rw [hfold] at ha; cases ha; exact le_refl _
  | cons c cs' ih =>
    intro acc b hfold
    simp only [List.foldl_cons] at hfold
    cases acc with
    | none =>
      obtain ⟨h1, h2⟩ := ih (some (c, levDist (jsLower v) (jsLower c))) b hfold
      constructor
      · intro c2 hc2
        rcases List.mem_cons.mp hc2 with hceq | hcs
        · subst hceq; exact h2 _ rfl
        · exact h1 c2 hcs
      · intro a ha; simp at ha
    | some bb =>
      by_cases hlt : levDist (jsLower v) (jsLower c) < bb.2
      · have hfold2 : cs'.foldl
            (fun best cand =>
              let d := levDist (jsLower v) (jsLower cand)
              match best with
              | Option.none => some (cand, d)
              | some bb => if d < bb.2 then some (cand, d) else some bb)
            (some (c, levDist (jsLower v) (jsLower c))) = some b := by
          simpa [hlt] using hfold
        obtain ⟨h1, h2⟩ := ih _ b hfold2
        constructor
        · intro c2 hc2
          rcases List.mem_cons.mp hc2 with hceq | hcs
          · subst hceq; exact h2 _ rfl
          · exact h1 c2 hcs
        · intro a ha
          injection ha with ha'
          subst ha'
          exact le_of_lt (lt_of_le_of_lt (h2 _ rfl) hlt)
      · have hfold2 : cs'.foldl
            (fun best cand =>
              let d := levDist (jsLower v) (jsLower cand)
              match best with
              | Option.none => some (cand, d)
              | some bb => if d < bb.2 then some (cand, d) else some bb)
            (some bb) = some b := by
          simpa [hlt] using hfold
        obtain ⟨h1, h2⟩ := ih _ b hfold2
        constructor
        · intro c2 hc2
          rcases List.mem_cons.mp hc2 with hceq | hcs
          · subst hceq
            exact le_trans (h2 _ rfl) (le_of_not_lt hlt)
          · exact h1 c2 hcs
        · intro a ha
          injection ha with ha'
          subst ha'
          exact h2 _ rfl

/-! ## Helper lemmas: the engine fold -/

theorem applyField_row_of_nonauto (prims : JsPrims) (opts : EngineOptions)
    (rule : Rule) (rowId : RowId) (st : EngineState) (field : String)
    (h : (rule.fix.getD FixStrategy.none == FixStrategy.auto_fix) = false) :
    (applyField prims opts rule rowId st field).row = st.row := by
  unfold applyField
  simp only [h, Bool.and_false, Bool.false_eq_true, if_false]
  split <;> rfl

theorem foldFields_row_of_nonauto (prims : JsPrims) (opts : EngineOptions)
    (rule : Rule) (rowId : RowId)
    (h : (rule.fix.getD FixStrategy.none == FixStrategy.auto_fix) = false) :
    ∀ (fields : List String) (st : EngineState),
      (fields.foldl (applyField prims opts rule rowId) st).row = st.row := by
  intro fields
  induction fields with
  | nil => intro st; rfl
  | cons f fs ih =>
    intro st
    rw [List.foldl_cons, ih]
    exact applyField_row_of_nonauto prims opts rule rowId st f h

theorem applyRow_row_of_nonauto (prims : JsPrims) (opts : EngineOptions)
    (rs : RuleSet) (row : Row) (rowId : RowId)
    (h : rs.rules.all
      (fun r => !r.enabled || !(r.fix.getD FixStrategy.none == FixStrategy.auto_fix)) = true) :
    (applyRow prims opts rs row rowId).normalizedRow = row := by
  unfold applyRow
  simp only
  have hall : ∀ r ∈ rs.rules.filter (fun r => r.enabled),
      (r.fix.getD FixStrategy.none == FixStrategy.auto_fix) = false := by
    intro r hr
    have hmem := List.mem_of_mem_filter hr
    have hen : r.enabled = true := by
      have := List.of_mem_filter hr
      simpa using this
    have h2 := (List.all_eq_true.mp h) r hmem
    simp [hen] at h2
    simpa using h2
  suffices hgen : ∀ (rules : List Rule) (st : EngineState),
      (∀ r ∈ rules, (r.fix.getD FixStrategy.none == FixStrategy.auto_fix) = false) →
      (rules.foldl (applyRuleFields prims opts rowId) st).row = st.row by
    exact hgen _ _ hall
  intro rules
  induction rules with
  | nil => intro st _; rfl
  | cons r rest ih =>
    intro st hall2
    rw [List.foldl_cons]
    rw [ih _ (fun r2 h2 => hall2 r2 (List.mem_cons_of_mem r h2))]
    exact foldFields_row_of_nonauto prims opts r rowId
      (hall2 r (List.mem_cons_self r rest)) _ st

theorem applyField_unknown (prims : JsPrims) (opts : EngineOptions)
    (rule : Rule) (rowId : RowId) (st : EngineState) (field : String)
    (h : builtinNames.contains rule.validator = false)
    (hp : protoNames.contains rule.validator = false) :
    applyField prims opts rule rowId st field = st := by
  unfold applyField applyRuleVR
  simp only [h, hp, Bool.false_eq_true, if_false]
  rfl

theorem applyRow_all_unknown (prims : JsPrims) (opts : EngineOptions)
    (rs : RuleSet) (row : Row) (rowId : RowId)
    (h : rs.rules.all (fun r => !(builtinNames.contains r.validator) &&
      !(protoNames.contains r.validator)) = true) :
    applyRow prims opts rs row rowId = { normalizedRow := row, issues := [] } := by
  unfold applyRow
  simp only
  have hall : ∀ r ∈ rs.rules.filter (fun r => r.enabled),
      builtinNames.contains r.validator = false ∧
      protoNames.contains r.validator = false := by
    intro r hr
    have hmem := List.mem_of_mem_filter hr
    have h2 := (List.all_eq_true.mp h) r hmem
    simpa using h2
  suffices hgen : ∀ (rules : List Rule) (st : EngineState),
      (∀ r ∈ rules, builtinNames.contains r.validator = false ∧
        protoNames.contains r.validator = false) →
      rules.foldl (applyRuleFields prims opts rowId) st = st by
    rw [hgen _ _ hall]
  intro rules
  induction rules with
  | nil => intro st _; rfl
  | cons r rest ih =>
    intro st hall2
    rw [List.foldl_cons]
    have hfields : ∀ (fields : List String) (st2 : EngineState),
        fields.foldl (applyField prims opts r rowId) st2 = st2 := by
      intro fields
      induction fields with
      | nil => intro st2; rfl
      | cons f fs ihf =>
        intro st2
        rw [List.foldl_cons,
          applyField_unknown prims opts r rowId st2 f
            (hall2 r (List.mem_cons_self r rest)).1
            (hall2 r (List.mem_cons_self r rest)).2]
        exact ihf st2
    show (List.foldl (applyRuleFields prims opts rowId)
      (applyRuleFields prims opts rowId st r) rest) = st
    rw [show applyRuleFields prims opts rowId st r = st from hfields _ st]
    exact ih st (fun r2 h2 => hall2 r2 (List.mem_cons_of_mem r h2))

/-! ## Helper lemmas: dedupe bucketing -/

/-- Read a bucket by key, first entry wins (the build keeps keys unique). -/
def bucketIds (bs : List (String × List String)) (k : String) : List String :=
  match bs.find? (fun p => p.1 == k) with
  | some p => p.2
  | Option.none => []

theorem upd_fst (k id : String) (q : String × List String) :
    ((fun p => if p.1 == k then (p.1, p.2 ++ [id]) else p) q).1 = q.1 := by
  by_cases h : q.1 == k <;> simp [h]

theorem bucketIds_map_upd (bs : List (String × List String)) (k k2 : String)
    (id : String) (hpresent : bs.any (fun p => p.1 == k) = true) :
    bucketIds (bs.map (fun p => if p.1 == k then (p.1, p.2 ++ [id]) else p)) k2 =
      if k2 = k then bucketIds bs k ++ [id] else bucketIds bs k2 := by
  have hpred : ((fun p : String × List String => p.1 == k2) ∘
      (fun p => if p.1 == k then (p.1, p.2 ++ [id]) else p)) =
      (fun p : String × List String => p.1 == k2) := by
    funext q
    simp only [Function.comp]
    rw [upd_fst]
  unfold bucketIds
  rw [List.find?_map, hpred]
  by_cases h2 : k2 = k
  · subst h2
    have hsome : (bs.find? (fun p => p.1 == k2)).isSome = true := by
      rw [List.find?_isSome]
      exact List.any_eq_true.mp hpresent
    cases hfind : bs.find? (fun p => p.1 == k2) with
    | none => rw [hfind] at hsome; simp at hsome
    | some p =>
      have hp := List.find?_some hfind
      simp only [hfind, Option.map, bucketIds]
      simp [hp]
  · cases hfind : bs.find? (fun p => p.1 == k2) with
    | none => simp [h2]
    | some p =>
      have hp0 := List.find?_some hfind
      have hp : p.1 = k2 := by simpa using hp0
      have hpk : (p.1 == k) = false := by
        simp [hp]
        exact fun hh => h2 hh
      simp only [hfind, Option.map]
      simp [hpk, h2]

theorem bucketIds_bucketAdd (bs : List (String × List String)) (k k2 id : String) :
    bucketIds (bucketAdd bs k id) k2 =
      if k2 = k then bucketIds bs k ++ [id] else bucketIds bs k2 := by
  unfold bucketAdd
  by_cases hpresent : bs.any (fun p => p.1 == k) = true
  · simp only [hpresent, if_true]
    exact bucketIds_map_upd bs k k2 id hpresent
  · simp only [hpresent, Bool.false_eq_true, if_false]
    have hnone : bs.find? (fun p => p.1 == k) = Option.none := by
      rw [List.find?_eq_none]
      intro x hx
      have hfalse := List.any_eq_false.mp (Bool.eq_false_iff.mpr hpresent) x hx
      simpa using hfalse
    by_cases h2 : k2 = k
    · subst h2
      simp [bucketIds, List.find?_append, hnone, List.find?]
    · have hk2ne : (k == k2) = false := by
        simp
        exact fun hh => h2 hh.symm
      simp only [bucketIds, List.find?_append]
      cases hfind : bs.find? (fun p => p.1 == k2) with
      | some p => simp [h2, hfind]
      | none => simp [h2, hfind, List.find?, hk2ne]

theorem bucketIds_buildBuckets (keyFields : List String) (rows : List (String × Row))
    (k : String) (hk : (k == "") = false) :
    bucketIds (buildBuckets keyFields rows) k =
      (rows.filter (fun p => compositeKey keyFields p.2 == k)).map (fun p => p.1) := by
  suffices hgen : ∀ (rowsTail : List (String × Row)) (bs : List (String × List String)),
      bucketIds (rowsTail.foldl
        (fun bs p =>
          let key := compositeKey keyFields p.2
          if key == "" then bs else bucketAdd bs key p.1) bs) k =
        bucketIds bs k ++
          (rowsTail.filter (fun p => compositeKey keyFields p.2 == k)).map (fun p => p.1) by
    have := hgen rows []
    unfold buildBuckets
    simpa [bucketIds, List.find?] using this
  intro rowsTail
  induction rowsTail with
  | nil => intro bs; simp
  | cons q qs ih =>
    intro bs
    rw [List.foldl_cons]
    by_cases hq : compositeKey keyFields q.2 == ""
    · have hfilter : (compositeKey keyFields q.2 == k) = false := by
        have heq : compositeKey keyFields q.2 = "" := by simpa using hq
        rw [heq]
        rw [Bool.eq_false_iff]
        intro hkk
        rw [show k = "" from (by simpa using hkk : "" = k).symm] at hk
        simp at hk
      simp only [hq, if_true]
      rw [ih bs]
      simp [List.filter_cons, hfilter]
    · simp only [hq, Bool.false_eq_true, if_false]
      rw [ih (bucketAdd bs (compositeKey keyFields q.2) q.1)]
      rw [bucketIds_bucketAdd]
      by_cases hkq : k = compositeKey keyFields q.2
      · have hfilter : (compositeKey keyFields q.2 == k) = true := by simp [hkq]
        simp only [hkq, if_true, List.filter_cons, hfilter]
        simp [hkq]
      · have hfilter : (compositeKey keyFields q.2 == k) = false := by
          rw [Bool.eq_false_iff]
          intro hkk
          have hkk2 : compositeKey keyFields q.2 = k := by simpa using hkk
          exact hkq hkk2.symm
        simp only [hkq, if_false, List.filter_cons, hfilter]
        simp

theorem buildBuckets_keys_nodup (keyFields : List String) (rows : List (String × Row)) :
    ((buildBuckets keyFields rows).map (fun e => e.1)).Nodup ∧
    ∀ e ∈ buildBuckets keyFields rows, (e.1 == "") = false := by
  suffices hgen : ∀ (rowsTail : List (String × Row)) (bs : List (String × List String)),
      (bs.map (fun e => e.1)).Nodup → (∀ e ∈ bs, (e.1 == "") = false) →
      ((rowsTail.foldl
        (fun bs p =>
          let key := compositeKey keyFields p.2
          if key == "" then bs else bucketAdd bs key p.1) bs).map (fun e => e.1)).Nodup ∧
      ∀ e ∈ rowsTail.foldl
        (fun bs p =>
          let key := compositeKey keyFields p.2
          if key == "" then bs else bucketAdd bs key p.1) bs, (e.1 == "") = false by
    exact hgen rows [] (by simp) (by simp)
  intro rowsTail
  induction rowsTail with
  | nil => intro bs h1 h2; exact ⟨h1, h2⟩
  | cons q qs ih =>
    intro bs h1 h2
    rw [List.foldl_cons]
    by_cases hq : compositeKey keyFields q.2 == ""
    · simp only [hq, if_true]
      exact ih bs h1 h2
    · simp only [hq, Bool.false_eq_true, if_false]
      apply ih
      · unfold bucketAdd
        by_cases hpres : bs.any (fun p => p.1 == compositeKey keyFields q.2) = true
        · simp only [hpres, if_true]
          have hkeys : (bs.map (fun p =>
              if p.1 == compositeKey keyFields q.2 then (p.1, p.2 ++ [q.1]) else p)).map
                (fun e => e.1) = bs.map (fun e => e.1) := by
            rw [List.map_map]
            apply List.map_congr_left
            intro x _
            exact upd_fst (compositeKey keyFields q.2) q.1 x
          rw [hkeys]
          exact h1
        · simp only [hpres, Bool.false_eq_true, if_false]
          rw [List.map_append]
          rw [List.nodup_append]
          refine ⟨h1, by simp, ?_⟩
          intro a ha
          simp only [List.map_cons, List.map_nil, List.mem_singleton]
          intro hb
          subst hb
          rcases List.mem_map.mp ha with ⟨e, he, hefst⟩
          have : (e.1 == compositeKey keyFields q.2) = true := by simp [hefst]
          have hany : bs.any (fun p => p.1 == compositeKey keyFields q.2) = true :=
            List.any_eq_true.mpr ⟨e, he, this⟩
          exact hpres hany
      · intro e he
        unfold bucketAdd at he
        by_cases hpres : bs.any (fun p => p.1 == compositeKey keyFields q.2) = true
        · simp only [hpres, if_true] at he
          rcases List.mem_map.mp he with ⟨x, hx, hxe⟩
          by_cases hxk : x.1 == compositeKey keyFields q.2
          · have : e.1 = x.1 := by rw [← hxe]; simp [hxk]
            rw [this]
            exact h2 x hx
          · have : e = x := by rw [← hxe]; simp [hxk]
            rw [this]
            exact h2 x hx
        · simp only [hpres, Bool.false_eq_true, if_false] at he
          rcases List.mem_append.mp he with hbs | hnew
          · exact h2 e hbs
          · have : e = (compositeKey keyFields q.2, [q.1]) := by simpa using hnew
            rw [this]
            simpa using hq

theorem filter_flatMap {α β : Type} (p : β → Bool) (g : α → List β) (l : List α) :
    (l.flatMap g).filter p = l.flatMap (fun e => (g e).filter p) := by
  induction l with
  | nil => rfl
  | cons x xs ih => simp [List.flatMap_cons, List.filter_append, ih]

theorem flatMap_eq_find {β : Type} (g : String × List String → List β) (k : String)
    (K : List (String × List String)) (hknd : (K.map (fun e => e.1)).Nodup)
    (hg : ∀ e ∈ K, (e.1 == k) = false → g e = []) :
    K.flatMap g =
      match K.find? (fun e => e.1 == k) with
      | some e => g e
      | Option.none => [] := by
  induction K with
  | nil => rfl
  | cons e K' ih =>
    by_cases hek : e.1 == k
    · have hek2 : e.1 = k := by simpa using hek
      have hrest : K'.flatMap g = [] := by
        rw [List.flatMap_eq_nil_iff]
        intro x hx
        apply hg x (List.mem_cons_of_mem e hx)
        rw [Bool.eq_false_iff]
        intro hxk
        have hxk2 : x.1 = k := by simpa using hxk
        have hmem : k ∈ K'.map (fun e => e.1) :=
          List.mem_map.mpr ⟨x, hx, hxk2⟩
        rw [List.map_cons] at hknd
        have := (List.nodup_cons.mp hknd).1
        rw [hek2] at this
        exact this hmem
      simp [List.flatMap_cons, List.find?, hek, hrest]
    · have hge : g e = [] := hg e (List.mem_cons_self e K') (Bool.eq_false_iff.mpr hek)
      have hknd' : (K'.map (fun e => e.1)).Nodup := by
        rw [List.map_cons] at hknd
        exact (List.nodup_cons.mp hknd).2
      simp only [List.flatMap_cons, hge, List.nil_append, List.find?]
      rw [Bool.eq_false_iff.mpr hek]
      exact ih hknd' (fun x hx => hg x (List.mem_cons_of_mem e hx))

theorem nodup_filter_beq (l : List String) (a : String)
    (hnd : l.Nodup) (ha : a ∈ l) : l.filter (fun x => x == a) = [a] := by
  induction l with
  | nil => simp at ha
  | cons x xs ih =>
    rcases List.mem_cons.mp ha with hax | haxs
    · subst hax
      have hnotmem := (List.nodup_cons.mp hnd).1
      have hfilter : xs.filter (fun y => y == a) = [] := by
        rw [List.filter_eq_nil_iff]
        intro y hy hxy
        exact hnotmem (by rw [show y = a from by simpa using hxy] at hy; exact hy)
      simp [List.filter_cons, hfilter]
    · have hxa : (x == a) = false := by
        rw [Bool.eq_false_iff]
        intro hxa
        rw [show x = a from by simpa using hxa] at hnd
        exact (List.nodup_cons.mp hnd).1 haxs
      simp only [List.filter_cons, hxa, Bool.false_eq_true, if_false]
      exact ih (List.nodup_cons.mp hnd).2 haxs

theorem fst_nodup_unique {β : Type} (rows : List (String × β)) (a : String) (x y : β)
    (hnd : (rows.map (fun p => p.1)).Nodup)
    (hx : (a, x) ∈ rows) (hy : (a, y) ∈ rows) : x = y := by
  induction rows with
  | nil => simp at hx
  | cons p ps ih =>
    rw [List.map_cons] at hnd
    obtain ⟨hhead, htail⟩ := List.nodup_cons.mp hnd
    rcases List.mem_cons.mp hx with hx1 | hx2 <;>
      rcases List.mem_cons.mp hy with hy1 | hy2
    · rw [← hx1] at hy1
      exact congrArg Prod.snd hy1.symm
    · exfalso
      apply hhead
      rw [← hx1]
      exact List.mem_map.mpr ⟨(a, y), hy2, rfl⟩
    · exfalso
      apply hhead
      rw [← hy1]
      exact List.mem_map.mpr ⟨(a, x), hx2, rfl⟩
    · exact ih htail hx2 hy2

theorem bucketIds_of_mem (K : List (String × List String))
    (hknd : (K.map (fun e => e.1)).Nodup) (e : String × List String) (he : e ∈ K) :
    bucketIds K e.1 = e.2 := by
  induction K with
  | nil => simp at he
  | cons p ps ih =>
    rw [List.map_cons] at hknd
    obtain ⟨hhead, htail⟩ := List.nodup_cons.mp hknd
    rcases List.mem_cons.mp he with he1 | he2
    · subst he1
      simp [bucketIds, List.find?]
    · have hne : (p.1 == e.1) = false := by
        rw [Bool.eq_false_iff]
        intro hpe
        apply hhead
        rw [show p.1 = e.1 from by simpa using hpe]
        exact List.mem_map.mpr ⟨e, he2, rfl⟩
      simp only [bucketIds, List.find?, hne]
      exact ih htail he2

theorem flatMap_of_find?_none {β : Type} (g : String × List String → List β)
    (k : String) (K : List (String × List String))
    (hg : ∀ e ∈ K, (e.1 == k) = false → g e = [])
    (hfind : K.find? (fun e => e.1 == k) = Option.none) :
    K.flatMap g = [] := by
  rw [List.flatMap_eq_nil_iff]
  intro e he
  apply hg e he
  have := List.find?_eq_none.mp hfind e he
  simpa using this

theorem flatMap_of_find?_some {β : Type} (g : String × List String → List β)
    (k : String) (K : List (String × List String)) (e : String × List String)
    (hknd : (K.map (fun e => e.1)).Nodup)
    (hg : ∀ e ∈ K, (e.1 == k) = false → g e = [])
    (hfind : K.find? (fun e => e.1 == k) = some e) :
    K.flatMap g = g e := by
  rw [flatMap_eq_find g k K hknd hg, hfind]

section
attribute [local semireducible] Rat.add Rat.mul Rat.inv Rat.sub Rat.ofScientific

/-- C7: corrected form. In the exact phase of the dedupe scanner, a row is
skipped iff its joined composite key string is empty (which, for two or
more key fields, is NOT the same as all key fields being blank, because
the pipe separators make the key non-empty); every bucket with more than
one member yields exactly one issue per member carrying the shared
cluster, confidence 0.95 and severity warning, and rows with distinct keys
yield none. The second conjunct checks the two-identical-emails scenario:
exactly two issues, each referencing the two-element cluster, and the
distinct third row adds none. -/
theorem C7_dedupe_exact (keyFields : List String) (rows : List (String × Row))
    (id : String) (r : Row)
    (hmem : (id, r) ∈ rows) (hnd : (rows.map (fun p => p.1)).Nodup) :
    ((dedupeKeyIssues keyFields rows).filter (fun i => i.rowId == id) =
      (if compositeKey keyFields r = "" then []
       else if ((rows.filter
           (fun p => compositeKey keyFields p.2 == compositeKey keyFields r)).map
             (fun p => p.1)).length ≤ 1 then []
       else [{ rowId := id, field := joinSep "," keyFields, ruleId := "dedupe-key",
               problem := "Potential duplicate key: " ++ compositeKey keyFields r,
               cluster := (rows.filter
                 (fun p => compositeKey keyFields p.2 == compositeKey keyFields r)).map
                   (fun p => p.1),
               confidence := 0.95, severity := "warning" }]))
    ∧ dedupeKeyIssues ["email"]
        [("r1", [("email", Val.vStr "A@x.com")]),
         ("r2", [("email", Val.vStr "a@X.com ")]),
         ("r3", [("email", Val.vStr "b@y.com")])] =
      [{ rowId := "r1", field := "email", ruleId := "dedupe-key",
         problem := "Potential duplicate key: a@x.com", cluster := ["r1", "r2"],
         confidence := 0.95, severity := "warning" },
       { rowId := "r2", field := "email", ruleId := "dedupe-key",
         problem := "Potential duplicate key: a@x.com", cluster := ["r1", "r2"],
         confidence := 0.95, severity := "warning" }] := by
  constructor
  · obtain ⟨hknd, hkne⟩ := buildBuckets_keys_nodup keyFields rows
    have hg : ∀ e ∈ buildBuckets keyFields rows,
        (e.1 == compositeKey keyFields r) = false →
        ((if e.2.length ≤ 1 then ([] : List DIssue)
          else e.2.map (fun id2 =>
            { rowId := id2, field := joinSep "," keyFields, ruleId := "dedupe-key",
              problem := "Potential duplicate key: " ++ e.1, cluster := e.2,
              confidence := 0.95, severity := "warning" })).filter
          (fun i => i.rowId == id)) = [] := by
      intro e he hek
      by_cases hlen : e.2.length ≤ 1
      · simp [hlen]
      · simp only [hlen, if_false]
        rw [List.filter_map]
        suffices hnilf : e.2.filter
            ((fun i => i.rowId == id) ∘ (fun id2 =>
              ({ rowId := id2, field := joinSep "," keyFields, ruleId := "dedupe-key",
                 problem := "Potential duplicate key: " ++ e.1, cluster := e.2,
                 confidence := 0.95, severity := "warning" } : DIssue))) = [] by
          rw [hnilf]; rfl
        rw [List.filter_eq_nil_iff]
        intro x hx hxid
        have hxid2 : x = id := by simpa using hxid
        subst hxid2
        have hbids := bucketIds_of_mem (buildBuckets keyFields rows) hknd e he
        have hene : (e.1 == "") = false := hkne e he
        have hclust := bucketIds_buildBuckets keyFields rows e.1 hene
        have he2 : e.2 = (rows.filter
            (fun p => compositeKey keyFields p.2 == e.1)).map (fun p => p.1) := by
          rw [← hbids, hclust]
        rw [he2] at hx
        rcases List.mem_map.mp hx with ⟨q, hq, hqfst⟩
        have hqrows : q ∈ rows := (List.mem_filter.mp hq).1
        have hqkey : (compositeKey keyFields q.2 == e.1) = true :=
          (List.mem_filter.mp hq).2
        have hqpair : (x, q.2) ∈ rows := by
          rw [← hqfst]
          simpa using hqrows
        have hq2 : q.2 = r := fst_nodup_unique rows x q.2 r hnd hqpair hmem
        rw [hq2] at hqkey
        have hk3 : compositeKey keyFields r = e.1 := by simpa using hqkey
        rw [Bool.eq_false_iff] at hek
        exact hek (by simp [hk3.symm])
    show ((buildBuckets keyFields rows).flatMap _).filter _ = _
    rw [filter_flatMap]
    cases hfind : (buildBuckets keyFields rows).find?
        (fun e => e.1 == compositeKey keyFields r) with
    | none =>
      rw [flatMap_of_find?_none _ (compositeKey keyFields r) _ hg hfind]
      by_cases hk : compositeKey keyFields r = ""
      · rw [if_pos hk]
      · exfalso
        have hkb : (compositeKey keyFields r == "") = false := by
          rw [Bool.eq_false_iff]
          intro hkk
          exact hk (by simpa using hkk)
        have hclusterK := bucketIds_buildBuckets keyFields rows
          (compositeKey keyFields r) hkb
        have hidmem : id ∈ (rows.filter
            (fun p => compositeKey keyFields p.2 == compositeKey keyFields r)).map
              (fun p => p.1) := by
          apply List.mem_map.mpr
          exact ⟨(id, r), List.mem_filter.mpr ⟨hmem, by simp⟩, rfl⟩
        have hempty : bucketIds (buildBuckets keyFields rows)
            (compositeKey keyFields r) = [] := by
          unfold bucketIds
          rw [hfind]
        rw [hclusterK] at hempty
        rw [hempty] at hidmem
        simp at hidmem
    | some e =>
      rw [flatMap_of_find?_some _ (compositeKey keyFields r) _ e hknd hg hfind]
      have heK := List.mem_of_find?_eq_some hfind
      have hek : e.1 = compositeKey keyFields r := by
        simpa using List.find?_some hfind
      by_cases hk : compositeKey keyFields r = ""
      · exfalso
        have hne := hkne e heK
        rw [hek, hk] at hne
        simp at hne
      · have hkb : (compositeKey keyFields r == "") = false := by
          rw [Bool.eq_false_iff]
          intro hkk
          exact hk (by simpa using hkk)
        have hclusterK := bucketIds_buildBuckets keyFields rows
          (compositeKey keyFields r) hkb
        have hidmem : id ∈ (rows.filter
            (fun p => compositeKey keyFields p.2 == compositeKey keyFields r)).map
              (fun p => p.1) := by
          apply List.mem_map.mpr
          exact ⟨(id, r), List.mem_filter.mpr ⟨hmem, by simp⟩, rfl⟩
        have he2 : e.2 = (rows.filter
            (fun p => compositeKey keyFields p.2 == compositeKey keyFields r)).map
              (fun p => p.1) := by
          rw [← hclusterK]
          unfold bucketIds
          rw [hfind]
        rw [if_neg hk]
        by_cases hlen : e.2.length ≤ 1
        · have hlen2 : ((rows.filter
              (fun p => compositeKey keyFields p.2 == compositeKey keyFields r)).map
                (fun p => p.1)).length ≤ 1 := by rw [← he2]; exact hlen
          rw [if_pos hlen, if_pos hlen2]
          rfl
        · have hlen2 : ¬ ((rows.filter
              (fun p => compositeKey keyFields p.2 == compositeKey keyFields r)).map
                (fun p => p.1)).length ≤ 1 := by rw [← he2]; exact hlen
          rw [if_neg hlen, if_neg hlen2]
          rw [List.filter_map]
          have hclnd : ((rows.filter
              (fun p => compositeKey keyFields p.2 == compositeKey keyFields r)).map
                (fun p => p.1)).Nodup :=
            List.Nodup.sublist
              (List.Sublist.map (fun p => p.1) (List.filter_sublist rows)) hnd
          have hfeq : e.2.filter
              ((fun i => i.rowId == id) ∘ (fun id2 =>
                ({ rowId := id2, field := joinSep "," keyFields, ruleId := "dedupe-key",
                   problem := "Potential duplicate key: " ++ e.1, cluster := e.2,
                   confidence := 0.95, severity := "warning" } : DIssue))) = [id] := by
            show e.2.filter (fun x => x == id) = [id]
            rw [he2]
            exact nodup_filter_beq _ id hclnd hidmem
          rw [hfeq]
          simp only [List.map_cons, List.map_nil]
          rw [hek, he2]
  · decide

end

/-! ## Concrete fixtures used by witnesses and counterexamples

prims0 instantiates the opaque JS primitives with small concrete
functions that agree with the real libraries at every point the witnesses
evaluate (for example, none of the heuristic regexes matches the empty
string, and libphonenumber formats the scenario number to international
form). -/

def prims0 : JsPrims where
  jsNumber := fun _ => Option.none
  regexCompile := fun _ _ => .error "bad pattern"
  dateParse := fun _ => Option.none
  dateISO := fun _ => ""
  dateFormat := fun _ _ => ""
  isEmail := fun s => strIncludes s "@"
  isURL := fun _ => false
  urlNorm := fun _ => Option.none
  phoneParse := fun s c =>
    if s == "(415) 555-0199" && c == "US" then some "+1 415 555 0199" else Option.none
  -- Object.prototype members invoked with this = undefined: toString
  -- yields the primitive string that prints as object Undefined, so every
  -- ValidationResult field reads as undefined; isPrototypeOf yields false
  -- and constructor a plain object, likewise all-undefined; the dunder
  -- accessor resolves to the non-callable prototype object and the rest
  -- throw on ToObject(undefined).
  reTest := fun _ _ _ => false
  dateParseOk := fun _ => false
  protoCall := fun name _ _ _ =>
    if name == "toString" then .ok { valid := false }
    else if name == "isPrototypeOf" then .ok { valid := false }
    else if name == "constructor" then .ok { valid := false }
    else if name == "__proto__" then .error "fn is not a function"
    else if name == "toLocaleString" then
      .error "Cannot read properties of undefined (reading 'toString')"
    else .error "Cannot convert undefined or null to object"

def opts0 : EngineOptions := {}

def optsBoom : EngineOptions :=
  { customCodeRegistry := [("boom", fun _ _ _ => .error "boom")] }

def phoneRule : Rule :=
  { id := "phone", appliesTo := ["phone"], validator := "phone",
    fix := some FixStrategy.suggest_only, enabled := true }

def rsPhone : RuleSet := { name := "t", version := 1, rules := [phoneRule] }

def boomRule : Rule :=
  { id := "r1", appliesTo := ["x"], validator := "custom_code",
    params := { fn := some "boom" }, enabled := true }

def rsBoom : RuleSet := { name := "t", version := 1, rules := [boomRule] }

def enumRule : Rule :=
  { id := "e", appliesTo := ["x"], validator := "enum",
    params := { allowed := some ["A"], synonyms := some [("b", "C")] },
    fix := some FixStrategy.auto_fix, enabled := true }

def rsEnum : RuleSet := { name := "t", version := 1, rules := [enumRule] }

def unknownRule : Rule :=
  { id := "u", appliesTo := ["x"], validator := "made_up", enabled := true }

def rsUnknown : RuleSet := { name := "t", version := 1, rules := [unknownRule] }

def protoRule : Rule :=
  { id := "p", appliesTo := ["x"], validator := "toString", enabled := true }

def rsProto : RuleSet := { name := "t", version := 1, rules := [protoRule] }

section
attribute [local semireducible] Rat.add Rat.mul Rat.inv Rat.sub Rat.ofScientific

/-- C8: confirmed. detectType returns the top-ranked candidate (the
earliest entry of maximal score in the fixed candidate order) with its
score as the confidence, except that a top score below 0.3 forces type
string with confidence exactly 0.3; hence the reported confidence is
never below 0.3. -/
theorem C8_detectType (prims : JsPrims) (values : List String) :
    (0.3 : Rat) ≤ (detectType prims values).confidence
    ∧ detectType prims values =
        (match firstMaxBy (fun p => p.2) (scoreEntries prims values) with
         | some p => if p.2 < 0.3 then ⟨"string", 0.3⟩ else ⟨p.1, p.2⟩
         | Option.none => ⟨"string", 0.3⟩)
    ∧ ((match firstMaxBy (fun p => p.2) (scoreEntries prims values) with
        | some p => (scoreEntries prims values).all (fun q => decide (q.2 ≤ p.2))
        | Option.none => true) = true) := by
  have hhead := sortDescBy_head? (fun p : String × Rat => p.2) (scoreEntries prims values)
  have heq : detectType prims values =
      (match firstMaxBy (fun p => p.2) (scoreEntries prims values) with
       | some p => if p.2 < 0.3 then ⟨"string", 0.3⟩ else ⟨p.1, p.2⟩
       | Option.none => ⟨"string", 0.3⟩) := by
    show (match (sortDescBy (fun p => p.2) (scoreEntries prims values)).head? with
          | some p => if p.2 < 0.3 then (⟨"string", 0.3⟩ : TypeGuess) else ⟨p.1, p.2⟩
          | Option.none => ⟨"string", 0.3⟩) = _
    rw [hhead]
  refine ⟨?_, heq, ?_⟩
  · rw [heq]
    cases hfm : firstMaxBy (fun p => p.2) (scoreEntries prims values) with
    | none => simp
    | some p =>
      by_cases hlt : p.2 < 0.3
      · simp [hlt]
      · simp [hlt]
        exact le_of_not_lt hlt
  · cases hfm : firstMaxBy (fun p => p.2) (scoreEntries prims values) with
    | none => rfl
    | some p =>
      simp only
      rw [List.all_eq_true]
      intro q hq
      exact decide_eq_true (firstMaxBy_le _ _ p hfm q hq)

/-- C6: corrected form. When merging an external proposal, the target and
reason are overridden only when the proposed target is canonical, and the
merged confidence is the pointwise maximum and therefore never drops below
the heuristic confidence; but, contrary to the claim, the column is not
left fully intact otherwise — the external inferredType overrides the
heuristic type even when the target is rejected (see the counterexample). -/
theorem C6_mergeGemini (canon : List String) (mapping : List GeminiCol)
    (base : List ColumnSpec) (col : ColumnSpec) :
    ((mergeOne canon mapping col).target = col.target ∨
      canon.contains (((mergeOne canon mapping col).target).getD "") = true)
    ∧ ((mergeOne canon mapping col).reason = col.reason ∨
      canon.contains (((mergeOne canon mapping col).target).getD "") = true)
    ∧ col.confidence ≤ (mergeOne canon mapping col).confidence
    ∧ mergeGemini canon base mapping = base.map (mergeOne canon mapping) := by
  cases hl : lookupLast (mapping.map (fun m => (jsLower m.source, m)))
      (jsLower col.source) with
  | none =>
    have hm : mergeOne canon mapping col = col := by
      simp only [mergeOne]
      rw [hl]
    rw [hm]
    exact ⟨Or.inl rfl, Or.inl rfl, le_refl _, rfl⟩
  | some m =>
    have hm : mergeOne canon mapping col =
        { col with
          target := if canon.contains (m.target.getD "") then some (m.target.getD "")
            else col.target,
          reason := if canon.contains (m.target.getD "") then
              some (truthyStrOr m.reason "Gemini")
            else col.reason,
          type := truthyStrOr m.inferredType col.type,
          confidence :=
            match m.confidence with
            | some q => max col.confidence q
            | Option.none => col.confidence } := by
      simp only [mergeOne]
      rw [hl]
    rw [hm]
    have hconf : col.confidence ≤
        (match m.confidence with
         | some q => max col.confidence q
         | Option.none => col.confidence) := by
      cases m.confidence with
      | none => exact le_refl _
      | some q => exact le_max_left _ _
    by_cases hv : canon.contains (m.target.getD "") = true
    · exact ⟨Or.inr (by rw [if_pos hv]; exact hv),
        Or.inr (by rw [if_pos hv]; exact hv), hconf, rfl⟩
    · exact ⟨Or.inl (by rw [if_neg hv]), Or.inl (by rw [if_neg hv, if_neg hv]), hconf, rfl⟩

def colA : ColumnSpec :=
  { source := "a", type := "string", confidence := 0.5, samples := [],
    target := some "email", suggestTargets := [], reason := some "heuristic" }

def gemA : GeminiCol :=
  { source := "a", target := some "bogus", inferredType := some "phone",
    confidence := Option.none, reason := some "llm said so" }

/-- C6 counterexample: with a non-canonical external target, the claim
says the external proposal is discarded and the heuristic result stands;
but the external inferredType still overrides the heuristic type. -/
theorem C6_counterexample :
    (mergeOne ["email"] [gemA] colA).type = "phone"
    ∧ colA.type = "string"
    ∧ (["email"] : List String).contains "bogus" = false
    ∧ (mergeOne ["email"] [gemA] colA).target = some "email" := by
  refine ⟨?_, rfl, by decide, ?_⟩ <;> decide

/-- C5: corrected form. For every header column, the best candidate is
maximal among all boosted scores, and the target is pre-selected to the
best candidate field iff its score reaches the 0.6 gate; below the gate
the target is NOT left unset — it falls back to the raw source header
name, with reason "source header". -/
theorem C5_schema_gate (prims : JsPrims) (canon : List String) (name : String)
    (values : List String) (b : ScoredCand)
    (hbest : bestScored prims canon name values = some b) :
    ((boostedScored prims canon name values).all
      (fun x => decide (x.score ≤ b.score)) = true)
    ∧ (inferColumn prims canon name values).target =
        some (if 0.6 ≤ b.score then b.f else name)
    ∧ (inferColumn prims canon name values).reason =
        some (if 0.6 ≤ b.score then
            b.reason ++ " (" ++ toString ((b.score * 100).floor) ++ "%)"
          else "source header") := by
  have h2 : (sortDescBy (fun x : ScoredCand => x.score)
      (boostedScored prims canon name values)).head? = some b := hbest
  rw [sortDescBy_head?] at h2
  refine ⟨?_, ?_, ?_⟩
  · rw [List.all_eq_true]
    intro x hx
    exact decide_eq_true (firstMaxBy_le _ _ b h2 x hx)
  · show (match (scoredSorted prims canon name values).head? with
          | some b2 => if 0.6 ≤ b2.score then some b2.f else some name
          | Option.none => some name) = _
    rw [show (scoredSorted prims canon name values).head? = some b from hbest]
    by_cases h06 : (0.6 : Rat) ≤ b.score
    · simp [h06]
    · simp [h06]
  · show (match (scoredSorted prims canon name values).head? with
          | some b2 => if 0.6 ≤ b2.score then
              some (b2.reason ++ " (" ++ toString ((b2.score * 100).floor) ++ "%)")
            else some "source header"
          | Option.none => some "source header") = _
    rw [show (scoredSorted prims canon name values).head? = some b from hbest]
    by_cases h06 : (0.6 : Rat) ≤ b.score
    · simp [h06]
    · simp [h06]

/-- C5 witness: an exact header match scores 1.0 and is pre-selected. -/
theorem C5_witness :
    bestScored prims0 ["email"] "email" [] =
      some { f := "email", score := 1, reason := "header similarity" }
    ∧ (inferColumn prims0 ["email"] "email" []).target = some "email" := by
  refine ⟨by decide, ?_⟩
  have h := (C5_schema_gate prims0 ["email"] "email" []
    { f := "email", score := 1, reason := "header similarity" } (by decide)).2.1
  rw [h]
  decide

/-- C5 counterexample: for a header with best score below the 0.6 gate,
the claim says the target is left unset; the code sets it to the source
header name. -/
theorem C5_counterexample :
    bestScored prims0 ["email", "phone"] "zzzz" [] =
      some { f := "email", score := 0, reason := "header similarity" }
    ∧ (inferColumn prims0 ["email", "phone"] "zzzz" []).target = some "zzzz" := by
  constructor <;> decide

/-- C4: corrected form. The enum validator, on a non-empty value, tries
exact membership of the trimmed value in allowed, then the case-insensitive
synonym lookup PROVIDED the mapped value is a non-empty string (a synonym
mapped to the empty string is falsy in JS and is skipped — see the
counterexample), then the fuzzy match: the fold picks the first allowed
value of minimal case-insensitive edit distance (conjuncts two to four),
and accepts iff that minimum is at most fuzzyMaxDistance (default 2), with
confidence max(0.6, 1 - d/(maxD+1)). -/
theorem C4_enum_precedence (opts : EngineOptions) (value : Option Val)
    (params : Params) (c : String) (d : Nat)
    (hne : isEmptyV value = false)
    (hbest : enumBest (jsTrim (toStrV value)) (params.allowed.getD []) = some (c, d)) :
    (vEnum opts value params =
      (if (params.allowed.getD []).contains (jsTrim (toStrV value)) then
        { valid := true, normalized := some (Val.vStr (jsTrim (toStrV value))) }
      else
        match truthyOpt (lookupLast ((params.synonyms.getD []).map
            (fun p => (jsLower p.1, p.2))) (jsLower (jsTrim (toStrV value)))) with
        | some syn => { valid := true, normalized := some (Val.vStr syn) }
        | Option.none =>
          if d ≤ opts.fuzzyMaxDistance.getD 2 then
            { valid := true, normalized := some (Val.vStr c),
              confidence := some (max 0.6
                (1 - (d : Rat) / (((opts.fuzzyMaxDistance.getD 2 : Nat) : Rat) + 1))) }
          else { valid := false, problem := some "Value not in allowed enum." }))
    ∧ (params.allowed.getD []).contains c = true
    ∧ d = levDist (jsLower (jsTrim (toStrV value))) (jsLower c)
    ∧ (params.allowed.getD []).all
        (fun c2 => decide (d ≤ levDist (jsLower (jsTrim (toStrV value)))
          (jsLower c2))) = true := by
  obtain ⟨hcmem, hcdist⟩ := enumBest_mem _ _ _ hbest
  have hmin := enumBest_min _ _ _ hbest
  refine ⟨?_, ?_, hcdist, ?_⟩
  · simp only [vEnum, hne, Bool.false_eq_true, if_false]
    rw [hbest]
  · exact List.elem_eq_true_of_mem hcmem
  · rw [List.all_eq_true]
    intro c2 hc2
    exact decide_eq_true (hmin c2 hc2)

/-- C4 witness: the fuzzy branch on the spec scenario, input Strog against
allowed Strong / Mixed / Weak with synonym s to Strong: distance 1,
normalized Strong, confidence max(0.6, 1 - 1/3) = 2/3. -/
theorem C4_witness :
    isEmptyV (some (Val.vStr "Strog")) = false
    ∧ enumBest (jsTrim (toStrV (some (Val.vStr "Strog")))) ["Strong", "Mixed", "Weak"] =
        some ("Strong", 1)
    ∧ vEnum opts0 (some (Val.vStr "Strog"))
        { allowed := some ["Strong", "Mixed", "Weak"], synonyms := some [("s", "Strong")] } =
      { valid := true, normalized := some (Val.vStr "Strong"), confidence := some (2/3) } := by
  refine ⟨by decide, by decide, ?_⟩
  have h := (C4_enum_precedence opts0 (some (Val.vStr "Strog"))
    { allowed := some ["Strong", "Mixed", "Weak"], synonyms := some [("s", "Strong")] }
    "Strong" 1 (by decide) (by decide)).1
  rw [h]
  decide

/-- C4 counterexample: a synonym entry mapping to the empty string is
skipped by JS truthiness: the lookup finds the key, yet the validator
falls through to fuzzy and rejects, where the claim requires it to accept
with the mapped value. -/
theorem C4_counterexample :
    vEnum opts0 (some (Val.vStr "s"))
      { allowed := some ["Strong"], synonyms := some [("s", "")] } =
      { valid := false, problem := some "Value not in allowed enum." }
    ∧ lookupLast (([("s", "")] : List (String × String)).map
        (fun p => (jsLower p.1, p.2))) (jsLower (jsTrim (toStrV (some (Val.vStr "s"))))) =
      some "" := by
  constructor <;> decide

/-- C3: corrected form. Every built-in validator other than required
returns valid on an empty or blank value, EXCEPT custom_code: custom_code
short-circuits to valid only when params.fn is unset (falsy); with a fn
name set it dispatches regardless of blankness, and an unregistered name
yields an invalid result even on an empty value (see the counterexample). -/
theorem C3_empty_valid (prims : JsPrims) (opts : EngineOptions) (name : String)
    (value : Option Val) (params : Params) (row : Row)
    (hempty : isEmptyV value = true)
    (hname : name ∈ ["regex", "enum", "range", "date_format", "email", "phone",
        "url", "country", "state", "llm_review"] ∨
      (name = "custom_code" ∧ truthyOpt params.fn = Option.none)) :
    runValidator prims opts name value params row = .ok { valid := true } := by
  rcases hname with hlist | ⟨hcc, hfn⟩
  · fin_cases hlist
    · simp [runValidator, vRegex, hempty]
    · simp [runValidator, vEnum, hempty]
    · simp [runValidator, vRange, hempty]
    · simp [runValidator, vDateFormat, hempty]
    · simp [runValidator, vEmail, hempty]
    · simp [runValidator, vPhone, hempty]
    · simp [runValidator, vUrl, hempty]
    · simp [runValidator, vCountry, hempty]
    · simp [runValidator, vState, hempty]
    · simp [runValidator, vLlmReview]
  · subst hcc
    simp [runValidator, vCustomCode, hfn]

/-- C3 witness: the email validator on an absent value. -/
theorem C3_witness :
    isEmptyV (Option.none : Option Val) = true
    ∧ runValidator prims0 opts0 "email" Option.none {} [] = .ok { valid := true } :=
  ⟨rfl, C3_empty_valid prims0 opts0 "email" Option.none {} [] rfl (Or.inl (by decide))⟩

/-- C3 counterexample: custom_code with an unregistered fn name returns an
invalid result even on an empty value, where the claim requires valid. -/
theorem C3_counterexample :
    isEmptyV (Option.none : Option Val) = true
    ∧ runValidator prims0 opts0 "custom_code" Option.none { fn := some "f" } [] =
        .ok { valid := false, problem := some "Custom function not registered: f" } := by
  constructor <;> rfl

/-- C2: corrected form. A validator that throws during a (rule, field)
application is caught by applyRule and converted into an invalid
ValidationResult whose problem is the diagnostic message, an issue is
emitted for that field whose severity is the RULE severity, default
warning (NOT the fixed severity error the claim states — see the
counterexample), the row value is untouched, and processing continues
structurally over remaining rules and rows. -/
theorem C2_validator_throw (prims : JsPrims) (opts : EngineOptions) (rule : Rule)
    (st : EngineState) (field : String) (rowId : RowId) (e : String)
    (rows : List Row) (rs : RuleSet) (rules1 rules2 : List Rule) (st0 : EngineState)
    (hb : builtinNames.contains rule.validator = true)
    (he : runValidator prims opts rule.validator (rowGet st.row field) rule.params
      st.row = .error e) :
    applyRuleVR prims opts rule (rowGet st.row field) st.row =
      { valid := false, problem := some ("Validator error: " ++ e) }
    ∧ applyField prims opts rule rowId st field =
      { row := st.row,
        issues := st.issues ++
          [{ rowId := rowId, field := field, ruleId := rule.id,
             severity := rule.severity.getD Severity.warning,
             problem := "Validator error: " ++ e }] }
    ∧ (rules1 ++ rules2).foldl (applyRuleFields prims opts rowId) st0 =
        rules2.foldl (applyRuleFields prims opts rowId)
          (rules1.foldl (applyRuleFields prims opts rowId) st0)
    ∧ (applyChunk prims opts rs rows).length = rows.length := by
  have h1 : applyRuleVR prims opts rule (rowGet st.row field) st.row =
      { valid := false, problem := some ("Validator error: " ++ e) } := by
    unfold applyRuleVR
    simp only [hb, if_true]
    rw [he]
  refine ⟨h1, ?_, List.foldl_append _ _ _ _, by simp [applyChunk]⟩
  have hmsg : (("Validator error: " ++ e) == "") = false := by
    rw [Bool.eq_false_iff]
    intro hmm
    have heq : ("Validator error: " ++ e) = "" := by simpa using hmm
    have hlen := congrArg String.length heq
    rw [String.length_append] at hlen
    have h17 : ("Validator error: " : String).length = 17 := rfl
    have h0 : ("" : String).length = 0 := rfl
    rw [h17, h0] at hlen
    omega
  simp only [applyField]
  rw [h1]
  simp [truthyStrOr, hmsg, clamp01]

/-- C2 witness: a registered custom function that throws; the engine
converts the throw into an invalid result with the diagnostic message. -/
theorem C2_witness :
    builtinNames.contains boomRule.validator = true
    ∧ runValidator prims0 optsBoom boomRule.validator
        (rowGet [("x", Val.vStr "v")] "x") boomRule.params [("x", Val.vStr "v")] =
      .error "boom"
    ∧ applyRuleVR prims0 optsBoom boomRule
        (rowGet [("x", Val.vStr "v")] "x") [("x", Val.vStr "v")] =
      { valid := false, problem := some ("Validator error: " ++ "boom") } :=
  ⟨by decide, by rfl,
    (C2_validator_throw prims0 optsBoom boomRule
      { row := [("x", Val.vStr "v")], issues := [] } "x" (Sum.inl "1") "boom"
      [] rsBoom [] [] { row := [], issues := [] } (by decide) (by rfl)).1⟩

/-- C2 counterexample: the issue produced for a throwing validator carries
the rule default severity warning, not the severity error the claim
states. -/
theorem C2_counterexample :
    ((applyRow prims0 optsBoom rsBoom [("x", Val.vStr "v")] (Sum.inl "1")).issues.map
      (fun i => i.severity)) = [Severity.warning]
    ∧ Severity.warning ≠ Severity.error := by
  constructor
  · rfl
  · decide

/-- C10: corrected form. A rule whose validator name is neither a key of
the dispatch table NOR a property name inherited from Object.prototype is
treated as valid with no issue and no error: the bracket lookup is
undefined, applyRule returns a bare valid result, and a rule set made only
of such rules leaves the row unchanged and produces no issues; in
contrast, custom_code with an unregistered function name produces an
invalid result. (A name inherited from Object.prototype is NOT silently
valid — see the counterexample.) -/
theorem C10_unknown_validator (prims : JsPrims) (opts : EngineOptions)
    (rule : Rule) (value : Option Val) (vrow : Row) (rs : RuleSet) (row : Row)
    (rowId : RowId) (f : String)
    (h1 : builtinNames.contains rule.validator = false)
    (h1p : protoNames.contains rule.validator = false)
    (h2 : rs.rules.all (fun r => !(builtinNames.contains r.validator) &&
      !(protoNames.contains r.validator)) = true)
    (h3 : lookupFirst opts.customCodeRegistry f = Option.none)
    (h4 : (f == "") = false) :
    applyRuleVR prims opts rule value vrow = { valid := true }
    ∧ applyRow prims opts rs row rowId = { normalizedRow := row, issues := [] }
    ∧ runValidator prims opts "custom_code" value { fn := some f } vrow =
        .ok { valid := false,
              problem := some ("Custom function not registered: " ++ f) } := by
  refine ⟨?_, applyRow_all_unknown prims opts rs row rowId h2, ?_⟩
  · unfold applyRuleVR
    simp only [h1, h1p, Bool.false_eq_true, if_false]
  · show vCustomCode opts value { fn := some f } vrow = _
    unfold vCustomCode truthyOpt
    simp only [h4, Bool.false_eq_true, if_false]
    rw [h3]

/-- C10 witness: a rule with validator name made_up (missing from both the
dispatch table and Object.prototype) is silently valid and leaves the row
and issue list untouched. -/
theorem C10_witness :
    builtinNames.contains unknownRule.validator = false
    ∧ protoNames.contains unknownRule.validator = false
    ∧ rsUnknown.rules.all (fun r => !(builtinNames.contains r.validator) &&
        !(protoNames.contains r.validator)) = true
    ∧ applyRow prims0 opts0 rsUnknown [("x", Val.vStr "v")] (Sum.inl "1") =
        { normalizedRow := [("x", Val.vStr "v")], issues := [] } :=
  ⟨by decide, by decide, by decide,
    (C10_unknown_validator prims0 opts0 unknownRule Option.none [] rsUnknown
      [("x", Val.vStr "v")] (Sum.inl "1") "f" (by decide) (by decide) (by decide)
      (by rfl) (by decide)).2.1⟩

/-- C10 counterexample to the original claim: the validator name toString
is not a key of the dispatch table, yet it is not silently valid — the
bracket lookup resolves the inherited Object.prototype.toString, the call
returns a string whose valid property reads as undefined, and applyRow
emits an Issue with the fallback problem message and default warning
severity instead of disabling the rule without diagnostic. -/
theorem C10_counterexample :
    builtinNames.contains "toString" = false
    ∧ applyRuleVR prims0 opts0 protoRule (some (Val.vStr "v"))
        [("x", Val.vStr "v")] = { valid := false }
    ∧ (applyRow prims0 opts0 rsProto [("x", Val.vStr "v")]
        (Sum.inl "r1")).issues.map (fun i => (i.problem, i.severity)) =
      [("Validation check.", Severity.warning)]
    ∧ (applyRow prims0 opts0 rsProto [("x", Val.vStr "v")]
        (Sum.inl "r1")).normalizedRow = [("x", Val.vStr "v")] := by
  refine ⟨by decide, by decide, by decide, by decide⟩

/-- C1: confirmed. A (rule, field) application pushes exactly one issue
iff the validator reported invalid, OR produced a suggestion, OR produced
a normalized value under a non-auto_fix strategy; the row is rewritten
only under auto_fix with a normalized value; an issue under auto_fix has
no suggestion while under any other strategy the suggestion carries the
proposed value (vr.suggestion, else vr.normalized); and when every enabled
rule of the rule set has a non-auto_fix strategy, applyRow returns the row
unchanged. -/
theorem C1_issue_emission (prims : JsPrims) (opts : EngineOptions) (rule : Rule)
    (rowId : RowId) (row : Row) (issues : List Issue) (field : String)
    (rs : RuleSet) (row0 : Row)
    (hall : rs.rules.all (fun r => !r.enabled ||
      !(r.fix.getD FixStrategy.none == FixStrategy.auto_fix)) = true) :
    ((applyField prims opts rule rowId { row := row, issues := issues } field).issues =
      issues ++
        (if !(applyRuleVR prims opts rule (rowGet row field) row).valid
            || ((applyRuleVR prims opts rule (rowGet row field) row).suggestion.isSome
              || ((applyRuleVR prims opts rule (rowGet row field) row).normalized.isSome
                && !(rule.fix.getD FixStrategy.none == FixStrategy.auto_fix))) then
          [{ rowId := rowId, field := field, ruleId := rule.id,
             severity := rule.severity.getD Severity.warning,
             problem := truthyStrOr
               (applyRuleVR prims opts rule (rowGet row field) row).problem
               (if (applyRuleVR prims opts rule (rowGet row field) row).suggestion.isSome
                   || ((applyRuleVR prims opts rule (rowGet row field) row).normalized.isSome
                       && !(rule.fix.getD FixStrategy.none == FixStrategy.auto_fix)) then
                 "Review suggested fix." else "Validation check."),
             suggestion := if rule.fix.getD FixStrategy.none == FixStrategy.auto_fix then
                 Option.none
               else ((applyRuleVR prims opts rule (rowGet row field) row).suggestion.or
                 (applyRuleVR prims opts rule (rowGet row field) row).normalized),
             confidence := clamp01
               (applyRuleVR prims opts rule (rowGet row field) row).confidence }]
        else []))
    ∧ ((applyField prims opts rule rowId { row := row, issues := issues } field).row =
        (if rule.fix.getD FixStrategy.none == FixStrategy.auto_fix then
          (match (applyRuleVR prims opts rule (rowGet row field) row).normalized with
           | some nv => rowSet row field nv
           | Option.none => row)
        else row))
    ∧ (applyRow prims opts rs row0 rowId).normalizedRow = row0 := by
  refine ⟨?_, ?_, applyRow_row_of_nonauto prims opts rs row0 rowId hall⟩
  · simp only [applyField]
    by_cases hemit : (!(applyRuleVR prims opts rule (rowGet row field) row).valid
        || ((applyRuleVR prims opts rule (rowGet row field) row).suggestion.isSome
            || ((applyRuleVR prims opts rule (rowGet row field) row).normalized.isSome
                && !(rule.fix.getD FixStrategy.none == FixStrategy.auto_fix)))) = true
    · rw [if_pos hemit, if_pos hemit]
    · rw [if_neg hemit, if_neg hemit]
      simp
  · simp only [applyField]
    by_cases hauto : (rule.fix.getD FixStrategy.none == FixStrategy.auto_fix) = true
    · by_cases hnorm : (applyRuleVR prims opts rule (rowGet row field) row).normalized.isSome
      · have hcond : ((applyRuleVR prims opts rule (rowGet row field) row).normalized.isSome
            && rule.fix.getD FixStrategy.none == FixStrategy.auto_fix) = true := by
          simp [hnorm, hauto]
        rw [if_pos hauto]
        cases hn : (applyRuleVR prims opts rule (rowGet row field) row).normalized with
        | none => rw [hn] at hnorm; simp at hnorm
        | some nv =>
          simp only [hn, hnorm, hauto, Bool.and_true, if_true]
          split <;> rfl
      · have hnorm2 : (applyRuleVR prims opts rule (rowGet row field) row).normalized.isSome
            = false := by
          rw [Bool.eq_false_iff]; exact hnorm
        cases hn : (applyRuleVR prims opts rule (rowGet row field) row).normalized with
        | some nv => rw [hn] at hnorm2; simp at hnorm2
        | none =>
          rw [if_pos hauto]
          simp only [hn, hnorm2, Bool.false_and, Bool.false_eq_true, if_false]
          split <;> rfl
    · have hauto2 : (rule.fix.getD FixStrategy.none == FixStrategy.auto_fix) = false := by
        rw [Bool.eq_false_iff]; exact hauto
      rw [if_neg hauto]
      simp only [hauto2, Bool.and_false, Bool.false_eq_true, if_false]
      split <;> rfl

/-- C1 witness: scenario C of the spec — a phone rule with suggest_only on
a raw US number leaves the normalized row untouched (the issue carrying
the international format as suggestion is checked directly). -/
theorem C1_witness :
    (rsPhone.rules.all (fun r => !r.enabled ||
      !(r.fix.getD FixStrategy.none == FixStrategy.auto_fix)) = true)
    ∧ (applyRow prims0 opts0 rsPhone [("phone", Val.vStr "(415) 555-0199")]
        (Sum.inl "r1")).normalizedRow = [("phone", Val.vStr "(415) 555-0199")]
    ∧ (applyRow prims0 opts0 rsPhone [("phone", Val.vStr "(415) 555-0199")]
        (Sum.inl "r1")).issues.map (fun i => (i.field, i.suggestion)) =
      [("phone", some (Val.vStr "+1 415 555 0199"))] :=
  ⟨by decide,
   (C1_issue_emission prims0 opts0 phoneRule (Sum.inl "r1")
     [("phone", Val.vStr "(415) 555-0199")] [] "phone" rsPhone
     [("phone", Val.vStr "(415) 555-0199")] (by decide)).2.2,
   by rfl⟩

/-- C9: corrected form. Auto-fix is NOT idempotent for every built-in
validator (the enum validator with a synonym mapping outside the allowed
list rewrites the value again on a second pass — see the counterexample);
it does hold for the email validator of the claim example: applying a
single-field email auto_fix rule a second time to the normalized row of a
first application returns the identical result, for every row, engine
options and external email predicate. -/
theorem C9_autofix_email_idempotent (prims : JsPrims) (opts : EngineOptions)
    (ident lbl nm : String) (ver : Nat) (sev : Option Severity) (params : Params)
    (f : String) (row : Row) (rowId : RowId)
    (hf : (f == "*") = false) :
    applyRow prims opts
      { name := nm, version := ver,
        rules := [{ id := ident, label := lbl, appliesTo := [f], validator := "email",
                    params := params, fix := some FixStrategy.auto_fix, severity := sev,
                    enabled := true }] }
      (applyRow prims opts
        { name := nm, version := ver,
          rules := [{ id := ident, label := lbl, appliesTo := [f], validator := "email",
                      params := params, fix := some FixStrategy.auto_fix, severity := sev,
                      enabled := true }] } row rowId).normalizedRow rowId =
    applyRow prims opts
      { name := nm, version := ver,
        rules := [{ id := ident, label := lbl, appliesTo := [f], validator := "email",
                    params := params, fix := some FixStrategy.auto_fix, severity := sev,
                    enabled := true }] } row rowId := by
  set ruleE : Rule :=
    { id := ident, label := lbl, appliesTo := [f], validator := "email",
      params := params, fix := some FixStrategy.auto_fix, severity := sev,
      enabled := true } with hruleE
  set rsE : RuleSet := { name := nm, version := ver, rules := [ruleE] } with hrsE
  have hexp : ∀ r0 : Row, expandFields [f] r0 = [f] := by
    intro r0
    unfold expandFields
    have hf2 : ¬ f = "*" := by simpa using hf
    simp [hf2, dedupFirst, dedupFirstAux]
  have happ : ∀ r0 : Row, applyRow prims opts rsE r0 rowId =
      { normalizedRow := (applyField prims opts ruleE rowId { row := r0, issues := [] } f).row,
        issues := (applyField prims opts ruleE rowId { row := r0, issues := [] } f).issues } := by
    intro r0
    show applyRow prims opts { name := nm, version := ver, rules := [ruleE] } r0 rowId = _
    unfold applyRow
    have hfil : [ruleE].filter (fun r => r.enabled) = [ruleE] := rfl
    simp only [hfil, List.foldl_cons, List.foldl_nil]
    unfold applyRuleFields
    rw [show ruleE.appliesTo = [f] from rfl, hexp r0]
    rfl
  have hchar : ∀ r0 : Row,
      applyField prims opts ruleE rowId { row := r0, issues := [] } f =
        if isEmptyV (rowGet r0 f) then { row := r0, issues := [] }
        else if prims.isEmail (jsLower (jsTrim (toStrV (rowGet r0 f)))) then
          { row := rowSet r0 f (Val.vStr (jsLower (jsTrim (toStrV (rowGet r0 f))))),
            issues := [] }
        else
          { row := r0,
            issues := [{ rowId := rowId, field := f, ruleId := ident,
                         severity := sev.getD Severity.warning,
                         problem := "Invalid email." }] } := by
    intro r0
    have hvr : applyRuleVR prims opts ruleE (rowGet r0 f) r0 =
        vEmail prims (rowGet r0 f) := rfl
    simp only [applyField, hvr]
    by_cases hemp : isEmptyV (rowGet r0 f) = true
    · simp [vEmail, hemp]
    · have hemp2 : isEmptyV (rowGet r0 f) = false := by
        rw [Bool.eq_false_iff]; exact hemp
      by_cases hmail : prims.isEmail (jsLower (jsTrim (toStrV (rowGet r0 f)))) = true
      · simp [vEmail, hemp2, hmail]
      · have hmail2 : prims.isEmail (jsLower (jsTrim (toStrV (rowGet r0 f)))) = false := by
          rw [Bool.eq_false_iff]; exact hmail
        simp [vEmail, hemp2, hmail2, truthyStrOr, clamp01]
  rw [happ row, happ, hchar row]
  by_cases hemp : isEmptyV (rowGet row f) = true
  · rw [if_pos hemp]
    rw [hchar row, if_pos hemp]
  · have hemp2 : isEmptyV (rowGet row f) = false := by
      rw [Bool.eq_false_iff]; exact hemp
    rw [if_neg hemp]
    by_cases hmail : prims.isEmail (jsLower (jsTrim (toStrV (rowGet row f)))) = true
    · rw [if_pos hmail]
      set v : String := jsLower (jsTrim (toStrV (rowGet row f))) with hv
      have hget : rowGet (rowSet row f (Val.vStr v)) f = some (Val.vStr v) :=
        rowGet_rowSet_self row f (Val.vStr v)
      rw [hchar (rowSet row f (Val.vStr v)), hget]
      by_cases hemp3 : isEmptyV (some (Val.vStr v)) = true
      · rw [if_pos hemp3]
      · rw [if_neg hemp3]
        have hfix : jsLower (jsTrim (toStrV (some (Val.vStr v)))) = v := by
          show jsLower (jsTrim v) = v
          rw [hv]
          exact emailFix_fix (toStrV (rowGet row f))
        rw [hfix, if_pos hmail]
        have hsetfix : rowSet (rowSet row f (Val.vStr v)) f (Val.vStr v) =
            rowSet row f (Val.vStr v) := rowSet_self _ f (Val.vStr v) hget
        rw [hsetfix]
    · have hmail2 : prims.isEmail (jsLower (jsTrim (toStrV (rowGet row f)))) = false := by
        rw [Bool.eq_false_iff]; exact hmail
      rw [if_neg hmail]
      rw [hchar row, if_neg hemp, if_neg hmail]

/-- C9 witness: the email scenario of the claim — one pass over
USER@EXAMPLE.COM yields user@example.com and a second pass is a no-op. -/
theorem C9_witness :
    (("email" == "*") = false)
    ∧ applyRow prims0 opts0
        { name := "t", version := 1,
          rules := [{ id := "email", label := "", appliesTo := ["email"],
                      validator := "email", params := {},
                      fix := some FixStrategy.auto_fix, severity := Option.none,
                      enabled := true }] }
        (applyRow prims0 opts0
          { name := "t", version := 1,
            rules := [{ id := "email", label := "", appliesTo := ["email"],
                        validator := "email", params := {},
                        fix := some FixStrategy.auto_fix, severity := Option.none,
                        enabled := true }] }
          [("email", Val.vStr "USER@EXAMPLE.COM")] (Sum.inl "r1")).normalizedRow
        (Sum.inl "r1") =
      applyRow prims0 opts0
        { name := "t", version := 1,
          rules := [{ id := "email", label := "", appliesTo := ["email"],
                      validator := "email", params := {},
                      fix := some FixStrategy.auto_fix, severity := Option.none,
                      enabled := true }] }
        [("email", Val.vStr "USER@EXAMPLE.COM")] (Sum.inl "r1")
    ∧ (applyRow prims0 opts0
        { name := "t", version := 1,
          rules := [{ id := "email", label := "", appliesTo := ["email"],
                      validator := "email", params := {},
                      fix := some FixStrategy.auto_fix, severity := Option.none,
                      enabled := true }] }
        [("email", Val.vStr "USER@EXAMPLE.COM")] (Sum.inl "r1")).normalizedRow =
      [("email", Val.vStr "user@example.com")] :=
  ⟨by decide,
   C9_autofix_email_idempotent prims0 opts0 "email" "" "t" 1 Option.none {}
     "email" [("email", Val.vStr "USER@EXAMPLE.COM")] (Sum.inl "r1") (by decide),
   by decide⟩

/-- C9 counterexample to the original claim: auto-fix is not idempotent for
the enum validator — with allowed [A] and synonym b mapped to C (outside
the allowed list), the value b becomes C on the first pass and then A
(fuzzy match against the allowed list) on the second. -/
theorem C9_counterexample :
    rowGet (applyRow prims0 opts0 rsEnum [("x", Val.vStr "b")]
        (Sum.inl "r1")).normalizedRow "x" = some (Val.vStr "C")
    ∧ rowGet (applyRow prims0 opts0 rsEnum
        (applyRow prims0 opts0 rsEnum [("x", Val.vStr "b")]
          (Sum.inl "r1")).normalizedRow (Sum.inl "r1")).normalizedRow "x" =
      some (Val.vStr "A")
    ∧ ¬ (applyRow prims0 opts0 rsEnum
          (applyRow prims0 opts0 rsEnum [("x", Val.vStr "b")]
            (Sum.inl "r1")).normalizedRow (Sum.inl "r1")).normalizedRow =
        (applyRow prims0 opts0 rsEnum [("x", Val.vStr "b")]
          (Sum.inl "r1")).normalizedRow := by
  refine ⟨by decide, by decide, by decide⟩

/-- C7 witness: the two-identical-emails scenario run through the general
characterization — filtering the issues for row r1 yields exactly the
single issue carrying the cluster of the two matching rows. -/
theorem C7_witness :
    ("r1", [("email", Val.vStr "A@x.com")]) ∈
      [("r1", [("email", Val.vStr "A@x.com")]),
       ("r2", [("email", Val.vStr "a@X.com ")]),
       ("r3", [("email", Val.vStr "b@y.com")])]
    ∧ (([("r1", [("email", Val.vStr "A@x.com")]),
         ("r2", [("email", Val.vStr "a@X.com ")]),
         ("r3", [("email", Val.vStr "b@y.com")])].map
          (fun p => p.1)).Nodup : Prop)
    ∧ (dedupeKeyIssues ["email"]
        [("r1", [("email", Val.vStr "A@x.com")]),
         ("r2", [("email", Val.vStr "a@X.com ")]),
         ("r3", [("email", Val.vStr "b@y.com")])]).filter
        (fun i => i.rowId == "r1") =
      [{ rowId := "r1", field := "email", ruleId := "dedupe-key",
         problem := "Potential duplicate key: a@x.com", cluster := ["r1", "r2"],
         confidence := 0.95, severity := "warning" }] := by
  refine ⟨List.mem_cons_self _ _, by decide, ?_⟩
  rw [(C7_dedupe_exact ["email"]
    [("r1", [("email", Val.vStr "A@x.com")]),
     ("r2", [("email", Val.vStr "a@X.com ")]),
     ("r3", [("email", Val.vStr "b@y.com")])]
    "r1" [("email", Val.vStr "A@x.com")]
    (List.mem_cons_self _ _) (by decide)).1]
  decide

/-- C7 counterexample to the original claim: with two key fields that are
both blank the row is NOT skipped — the pipe separator makes the composite
key the non-empty string representable as 0x7c, so two such rows form a
reported duplicate cluster. -/
theorem C7_counterexample :
    dedupeNorm (some (Val.vStr " ")) = ""
    ∧ dedupeNorm Option.none = ""
    ∧ compositeKey ["a", "b"] [("a", Val.vStr " ")] = "|"
    ∧ (dedupeKeyIssues ["a", "b"]
        [("r1", [("a", Val.vStr " ")]), ("r2", [])]).length = 2 := by
  refine ⟨by decide, by decide, by decide, by decide⟩

end
